import Mathlib

/-!
Verification of the knowledge-base / quiz / serialization pipeline of
final_project_min.py (eastmade/final_project_hactiv8_mini_app).

Python strings are modelled as lists of unicode characters (`Str`), Python
byte strings at the character level (the final utf-8 encode/decode pair is
injective on unicode scalar values), and JSON-able Python objects by the
mutual inductive `JVal`.  All definitions are structural (fuel-based where
the Python loop is not) so that they reduce in the kernel.
-/

set_option maxRecDepth 8000
set_option maxHeartbeats 1000000

/-- Python strings, modelled as lists of unicode characters. -/
abbrev Str := List Char

/-- Characters stripped by Python str.strip() (ASCII whitespace). -/
def isPySpace (c : Char) : Bool :=
  c = ' ' || c = '\t' || c = '\n' || c = '\r' || c = '\x0b' || c = '\x0c'

/-- Python str.strip(): drop whitespace from both ends. -/
def pyStrip (s : Str) : Str :=
  ((s.dropWhile isPySpace).reverse.dropWhile isPySpace).reverse

/-- Sum of the lengths of a list of strings. -/
def sumLens (l : List Str) : Nat := (l.map List.length).sum

/-- Python str.join. -/
def pyJoin (sep : Str) : List Str → Str
  | [] => []
  | [x] => x
  | x :: y :: t => x ++ sep ++ pyJoin sep (y :: t)

/-- Decimal digit character (d < 10). -/
def digitChar (d : Nat) : Char := Char.ofNat (48 + d)

/-- Decimal digits of a natural number, most significant first; fuel-based so
that it reduces in the kernel (fuel n+1 always suffices). -/
def natDigitsAux : Nat → Nat → Str → Str
  | 0, _, acc => acc
  | f + 1, n, acc =>
    if n < 10 then digitChar n :: acc
    else natDigitsAux f (n / 10) (digitChar (n % 10) :: acc)

/-- Decimal representation of a natural number. -/
def natToStr (n : Nat) : Str := natDigitsAux (n + 1) n []

/-- Decimal representation of an integer, as Python str() prints it. -/
def intToStr (n : Int) : Str :=
  if n < 0 then '-' :: natToStr (-n).toNat else natToStr n.toNat

/-- Outcome of the external generate_content round trip inside ask_model:
either a response object carrying an optional text payload, or a raised
exception whose rendered detail is the given string.  The network call itself
is outside the program, so ask_model is modelled as a function of this
outcome. -/
inductive CallResult where
  | ok (text : Option Str)
  | err (detail : Str)

/-- ask_model from final_project_min.py: on success return the response text
(None normalized to the empty string) stripped of surrounding whitespace; on
any exception return the fixed Indonesian failure message embedding the error
detail. -/
def ask_model (r : CallResult) : Str :=
  match r with
  | .ok t => pyStrip (t.getD [])
  | .err e => "(Gagal memanggil model: ".data ++ e ++ ")".data

/-- Values the app stores in CSV rows (strings, integers, booleans). -/
inductive CsvVal where
  | vstr (s : Str)
  | vint (n : Int)
  | vbool (b : Bool)
deriving DecidableEq

/-- Python str() on the row values the app passes to make_csv_bytes. -/
def pyStr : CsvVal → Str
  | .vstr s => s
  | .vint n => intToStr n
  | .vbool true => "True".data
  | .vbool false => "False".data

/-- A row, i.e. a Python dict from field name to value (insertion order,
keys unique as in any Python dict). -/
abbrev Row := List (Str × CsvVal)

/-- Python dict.get: first binding of the key, if any. -/
def rowGet (r : Row) (k : Str) : Option CsvVal :=
  match r with
  | [] => none
  | kv :: t => if kv.1 = k then some kv.2 else rowGet t k

/-- The str.replace of make_csv_bytes: double every double quote. -/
def csvDouble : Str → Str
  | [] => []
  | c :: t => if c = '"' then '"' :: '"' :: csvDouble t else c :: csvDouble t

/-- One emitted CSV field, exactly as the inner loop of make_csv_bytes
produces it: double every quote, then wrap the field in quotes iff it
contains a comma or a newline. -/
def csvField (v : Str) : Str :=
  let v2 := csvDouble v
  if v2.contains ',' || v2.contains '\n' then '"' :: v2 ++ ['"'] else v2

/-- The fields of one data line, for a fixed header column list. -/
def csvRowFields (cols : List Str) (r : Row) : List Str :=
  cols.map (fun c => csvField (pyStr ((rowGet r c).getD (.vstr []))))

/-- make_csv_bytes from final_project_min.py.  Empty input yields the empty
byte string; otherwise the header is the first record's keys and every record
is rendered against that header. -/
def make_csv_bytes (rows : List Row) : Str :=
  match rows with
  | [] => []
  | r0 :: rest =>
    let cols := r0.map Prod.fst
    let lines := pyJoin [','] cols ::
      (r0 :: rest).map (fun r => pyJoin [','] (csvRowFields cols r))
    pyJoin ['\n'] lines

/-! ### Generic string lemmas -/

theorem head?_dropWhile_not (p : Char → Bool) (s : Str) :
    ∀ c, ((s.dropWhile p).head? = some c) → p c = false := by
  induction s with
  | nil => intro c h; simp [List.dropWhile] at h
  | cons a t ih =>
    intro c h
    by_cases hp : p a
    · rw [List.dropWhile_cons_of_pos hp] at h
      exact ih c h
    · rw [List.dropWhile_cons_of_neg hp] at h
      simp at h
      rw [h] at hp
      simpa using hp

theorem getLast?_dropWhile (p : Char → Bool) (l : Str) :
    l.dropWhile p = [] ∨ (l.dropWhile p).getLast? = l.getLast? := by
  induction l with
  | nil => exact Or.inl rfl
  | cons a t ih =>
    by_cases hp : p a
    · rw [List.dropWhile_cons_of_pos hp]
      rcases ih with h | h
      · exact Or.inl h
      · cases t with
        | nil => exact Or.inl (by simp [List.dropWhile])
        | cons b u =>
          right
          rw [h, List.getLast?_cons_cons]
    · rw [List.dropWhile_cons_of_neg hp]
      exact Or.inr rfl

/-- A string has no whitespace at either end. -/
def noEdgeWs (s : Str) : Bool :=
  (match s.head? with | some c => !isPySpace c | none => true) &&
  (match s.getLast? with | some c => !isPySpace c | none => true)

theorem noEdgeWs_pyStrip (s : Str) : noEdgeWs (pyStrip s) = true := by
  unfold pyStrip noEdgeWs
  set u := s.dropWhile isPySpace with hu
  set d := u.reverse.dropWhile isPySpace with hd
  have hhead : ∀ c, d.reverse.head? = some c → isPySpace c = false := by
    intro c h
    rw [List.head?_reverse] at h
    rcases getLast?_dropWhile isPySpace u.reverse with h0 | h0
    · rw [← hd] at h0; rw [h0] at h; simp at h
    · rw [← hd] at h0
      rw [h0] at h
      rw [List.getLast?_reverse] at h
      exact head?_dropWhile_not isPySpace s c h
  have hlast : ∀ c, d.reverse.getLast? = some c → isPySpace c = false := by
    intro c h
    rw [List.getLast?_reverse] at h
    exact head?_dropWhile_not isPySpace u.reverse c h
  cases he : d.reverse.head? with
  | none =>
    cases hl : d.reverse.getLast? with
    | none => simp [he, hl]
    | some c => simp [he, hl, hlast c hl]
  | some c =>
    cases hl : d.reverse.getLast? with
    | none => simp [he, hl, hhead c he]
    | some c2 => simp [he, hl, hhead c he, hlast c2 hl]

theorem mem_csvDouble (v : Str) (c : Char) (hc : ¬ c = '"') :
    c ∈ csvDouble v ↔ c ∈ v := by
  induction v with
  | nil => simp [csvDouble]
  | cons a t ih =>
    by_cases ha : a = '"'
    · subst ha
      simp [csvDouble, ih, hc]
    · simp [csvDouble, ha, ih]

/-- C7: ask_model always returns a string and never raises past its boundary:
a failed generation call yields the fixed failure message with the error
detail embedded as a substring, a successful call yields the response text
stripped of surrounding whitespace (so the result has no whitespace at either
end), and a missing text payload is normalized to the empty string. -/
theorem ask_model_recovers_all_failures :
    (∀ e : Str, ask_model (.err e) =
        "(Gagal memanggil model: ".data ++ e ++ ")".data ∧
      ∃ l r, ask_model (.err e) = l ++ e ++ r) ∧
    (∀ t : Str, ask_model (.ok (some t)) = pyStrip t ∧
      noEdgeWs (ask_model (.ok (some t))) = true) ∧
    ask_model (.ok none) = [] := by
  refine ⟨fun e => ⟨rfl, ⟨"(Gagal memanggil model: ".data, ")".data, rfl⟩⟩,
    fun t => ⟨rfl, noEdgeWs_pyStrip t⟩, rfl⟩

/-- C8 (amended): make_csv_bytes renders every field through csvField; a
field containing a comma (or a newline) is wrapped in quotes with internal
quotes doubled, but a field containing a double quote and no comma/newline is
emitted with its quotes doubled only, without the surrounding quotes. -/
theorem make_csv_bytes_escaping (r0 : Row) (rs : List Row) :
    (make_csv_bytes (r0 :: rs) =
      pyJoin ['\n'] (pyJoin [','] (r0.map Prod.fst) ::
        (r0 :: rs).map (fun r =>
          pyJoin [','] (csvRowFields (r0.map Prod.fst) r)))) ∧
    (∀ v : Str, v.contains ',' = true ∨ v.contains '\n' = true →
      csvField v = '"' :: csvDouble v ++ ['"']) ∧
    (∀ v : Str, v.contains ',' = false → v.contains '\n' = false →
      csvField v = csvDouble v) := by
  refine ⟨rfl, ?_, ?_⟩
  · intro v hv
    rcases hv with hv | hv
    · have h1 : ',' ∈ csvDouble v := by
        rw [mem_csvDouble v ',' (by decide)]
        simpa using hv
      simp [csvField, h1]
    · have h1 : '\n' ∈ csvDouble v := by
        rw [mem_csvDouble v '\n' (by decide)]
        simpa using hv
      simp [csvField, h1]
  · intro v hv hn
    have h1 : ',' ∉ csvDouble v := by
      rw [mem_csvDouble v ',' (by decide)]
      simpa using hv
    have h2 : '\n' ∉ csvDouble v := by
      rw [mem_csvDouble v '\n' (by decide)]
      simpa using hn
    simp [csvField, h1, h2]

theorem make_csv_bytes_escaping_witness :
    csvField (",".data) = '"' :: csvDouble (",".data) ++ ['"'] ∧
    csvField ("\n".data) = '"' :: csvDouble ("\n".data) ++ ['"'] ∧
    csvField ("\"".data) = csvDouble ("\"".data) := by
  exact ⟨(make_csv_bytes_escaping [] []).2.1 (",".data) (by decide),
    (make_csv_bytes_escaping [] []).2.1 ("\n".data) (by decide),
    (make_csv_bytes_escaping [] []).2.2 ("\"".data) (by decide) (by decide)⟩

/-- C8 counterexample: the value a"b contains a double quote, yet
make_csv_bytes emits it as a""b with its quote doubled but WITHOUT wrapping
the field in double quotes: the full output for the one-column row is
x newline a""b, and the emitted field starts with the letter a, not with a
quote. -/
theorem make_csv_bytes_quote_unwrapped_cex :
    make_csv_bytes [[("x".data, .vstr ("a\"b").data)]] = ("x\na\"\"b").data ∧
    ("a\"b").data.contains '"' = true ∧
    (csvField (("a\"b").data)).head? = some 'a' := by
  refine ⟨by decide, by decide, by decide⟩

theorem rowGet_filter_mem (r : Row) (cols : List Str) (c : Str)
    (hc : c ∈ cols) :
    rowGet (r.filter (fun kv => decide (kv.1 ∈ cols))) c = rowGet r c := by
  induction r with
  | nil => rfl
  | cons kv t ih =>
    by_cases hk : kv.1 ∈ cols
    · simp only [List.filter_cons, hk, decide_True, if_true]
      by_cases he : kv.1 = c
      · simp [rowGet, he]
      · simp [rowGet, he, ih]
    · simp only [List.filter_cons, hk, decide_False, if_false]
      have hne : ¬ kv.1 = c := fun he => hk (he ▸ hc)
      simp [rowGet, hne, ih]

/-- C10: make_csv_bytes takes its column set from the first record only:
every record (the first included) is rendered against the first record's
keys, each data line has exactly as many fields as the first record has keys,
a record missing one of those keys contributes an empty field for that
column, and keys of a record that are not among the first record's keys are
dropped (removing them does not change the rendered fields); no shape
mismatch can raise, as the function is total. -/
theorem make_csv_bytes_first_record_schema (r0 : Row) (rs : List Row) :
    (make_csv_bytes (r0 :: rs) =
      pyJoin ['\n'] (pyJoin [','] (r0.map Prod.fst) ::
        (r0 :: rs).map (fun r =>
          pyJoin [','] (csvRowFields (r0.map Prod.fst) r)))) ∧
    (∀ r : Row, (csvRowFields (r0.map Prod.fst) r).length = r0.length) ∧
    (∀ (r : Row) (c : Str), rowGet r c = none →
      csvField (pyStr ((rowGet r c).getD (.vstr []))) = []) ∧
    (∀ r : Row, csvRowFields (r0.map Prod.fst) r =
      csvRowFields (r0.map Prod.fst)
        (r.filter (fun kv => decide (kv.1 ∈ r0.map Prod.fst)))) := by
  refine ⟨rfl, ?_, ?_, ?_⟩
  · intro r
    simp [csvRowFields]
  · intro r c h
    rw [h]
    rfl
  · intro r
    unfold csvRowFields
    apply List.map_congr_left
    intro c hcmem
    rw [rowGet_filter_mem r (r0.map Prod.fst) c hcmem]

theorem make_csv_bytes_first_record_schema_witness :
    csvField (pyStr ((rowGet [(("b").data, .vstr ("2").data)] (("a").data)).getD
      (.vstr []))) = [] ∧
    make_csv_bytes [[(("a").data, .vstr ("1").data)],
      [(("b").data, .vstr ("2").data)]] = ("a\n1\n").data := by
  refine ⟨(make_csv_bytes_first_record_schema [(("a").data, .vstr ("1").data)]
    []).2.2.1 [(("b").data, .vstr ("2").data)] (("a").data) (by decide), by decide⟩

/-! ### JSON values (the Python objects json.loads produces) -/

mutual
/-- JSON-able Python values: None, bool, int, str, list, dict.  JSON numbers
are modelled as integers: the pipeline only consumes integer answer keys, and
floating-point payloads are outside the scope of this embedding. -/
inductive JVal where
  | jnull
  | jbool (b : Bool)
  | jint (n : Int)
  | jstr (s : Str)
  | jarr (xs : JArr)
  | jobj (ms : JObj)
/-- A JSON array. -/
inductive JArr where
  | anil
  | acons (v : JVal) (tl : JArr)
/-- A JSON object: key/value pairs in insertion order. -/
inductive JObj where
  | onil
  | ocons (k : Str) (v : JVal) (tl : JObj)
end

/-- Convert a JSON array to a Lean list. -/
def JArr.toList : JArr → List JVal
  | .anil => []
  | .acons v tl => v :: tl.toList

/-- Keys of a JSON object, in order. -/
def JObj.keys : JObj → List Str
  | .onil => []
  | .ocons k _ tl => k :: tl.keys

/-- Python dict lookup: the last binding wins, matching json.loads
duplicate-key semantics where a later duplicate overwrites the value. -/
def JObj.get : JObj → Str → Option JVal
  | .onil, _ => none
  | .ocons k v tl, key =>
    match JObj.get tl key with
    | some w => some w
    | none => if k = key then some v else none

/-- Python membership test (key in dict). -/
def JObj.hasKey (ms : JObj) (k : Str) : Bool := (JObj.get ms k).isSome

/-- Numeric value of a digit string, most significant digit first. -/
def digitsVal : Str → Nat → Nat
  | [], acc => acc
  | c :: t, acc => digitsVal t (acc * 10 + (c.toNat - 48))

/-- Python int() applied to a string: optional surrounding whitespace, an
optional sign, then decimal digits; anything else raises. -/
def strToIntOpt (s : Str) : Option Int :=
  let t := pyStrip s
  match t with
  | '-' :: ds =>
    if !ds.isEmpty && ds.all Char.isDigit then some (-(digitsVal ds 0 : Int))
    else none
  | '+' :: ds =>
    if !ds.isEmpty && ds.all Char.isDigit then some ((digitsVal ds 0 : Int))
    else none
  | ds =>
    if !ds.isEmpty && ds.all Char.isDigit then some ((digitsVal ds 0 : Int))
    else none

/-- Python int() coercion as gen_mcq applies it to a parsed key: ints are
unchanged, booleans become 0/1, numeric strings are parsed; None, lists,
dicts and non-numeric strings raise (None here). -/
def pyInt : JVal → Option Int
  | .jint n => some n
  | .jbool b => some (if b then 1 else 0)
  | .jstr s => strToIntOpt s
  | _ => none

/-! ### The json.loads scanner -/

/-- JSON whitespace. -/
def isJsonWs (c : Char) : Bool := c = ' ' || c = '\t' || c = '\n' || c = '\r'

/-- Skip leading JSON whitespace. -/
def skipWs (s : Str) : Str := s.dropWhile isJsonWs

/-- Value of a hexadecimal digit. -/
def hexVal (c : Char) : Option Nat :=
  if '0' ≤ c && c ≤ '9' then some (c.toNat - 48)
  else if 'a' ≤ c && c ≤ 'f' then some (c.toNat - 87)
  else if 'A' ≤ c && c ≤ 'F' then some (c.toNat - 55)
  else none

/-- Single-character JSON string escapes. -/
def escChar (e : Char) : Option Char :=
  if e = '"' then some '"'
  else if e = '\\' then some '\\'
  else if e = '/' then some '/'
  else if e = 'b' then some '\x08'
  else if e = 'f' then some '\x0c'
  else if e = 'n' then some '\n'
  else if e = 'r' then some '\r'
  else if e = 't' then some '\t'
  else none

/-- Parse the body of a JSON string after the opening quote, following the
strict json.loads scanner: a raw control character is an error, and the
escapes are the standard eight plus a non-surrogate \uXXXX. -/
def parseStringBody : Str → Option (Str × Str)
  | [] => none
  | c :: cs =>
    if c = '"' then some ([], cs)
    else if c = '\\' then
      (match cs with
       | [] => none
       | e :: cs2 =>
         if e = 'u' then
           (match cs2 with
            | h1 :: h2 :: h3 :: h4 :: cs3 =>
              (match hexVal h1, hexVal h2, hexVal h3, hexVal h4 with
               | some a, some b, some c2, some d =>
                 if ((a * 16 + b) * 16 + c2) * 16 + d < 0xd800 ∨
                     0xe000 ≤ ((a * 16 + b) * 16 + c2) * 16 + d then
                   (parseStringBody cs3).map
                     (fun p => (Char.ofNat (((a * 16 + b) * 16 + c2) * 16 + d) :: p.1, p.2))
                 else none
               | _, _, _, _ => none)
            | _ => none)
         else
           (match escChar e with
            | some ec => (parseStringBody cs2).map (fun p => (ec :: p.1, p.2))
            | none => none))
    else if c.toNat < 32 then none
    else (parseStringBody cs).map (fun p => (c :: p.1, p.2))

/-- Does the remainder start with a fraction dot or an exponent marker (the
float continuations the integer model rejects)? -/
def headDotE : Str → Bool
  | [] => false
  | c :: _ => c = '.' || c = 'e' || c = 'E'

/-- Parse an unsigned JSON integer: digits without a redundant leading zero,
not followed by a fractional part or exponent (a Python float is outside the
integer model and treated as a parse failure). -/
def parseNat (t : Str) : Option (Nat × Str) :=
  match t with
  | [] => none
  | c :: t2 =>
    if c.isDigit then
      if c = '0' then
        (if headDotE t2 then none else some (0, t2))
      else
        (if headDotE ((c :: t2).dropWhile Char.isDigit) then none
         else some (digitsVal ((c :: t2).takeWhile Char.isDigit) 0,
           (c :: t2).dropWhile Char.isDigit))
    else none

/-- Parse a JSON number (integer model: see parseNat). -/
def parseNumber (s : Str) : Option (JVal × Str) :=
  match s with
  | [] => none
  | c :: t =>
    if c = '-' then (parseNat t).map (fun p => (JVal.jint (-(p.1 : Int)), p.2))
    else (parseNat (c :: t)).map (fun p => (JVal.jint ((p.1 : Int)), p.2))

/-- Recognize the tail of the literal true. -/
def litTrue : Str → Option (JVal × Str)
  | 'r' :: 'u' :: 'e' :: cs2 => some (.jbool true, cs2)
  | _ => none

/-- Recognize the tail of the literal false. -/
def litFalse : Str → Option (JVal × Str)
  | 'a' :: 'l' :: 's' :: 'e' :: cs2 => some (.jbool false, cs2)
  | _ => none

/-- Recognize the tail of the literal null. -/
def litNull : Str → Option (JVal × Str)
  | 'u' :: 'l' :: 'l' :: cs2 => some (.jnull, cs2)
  | _ => none

mutual
/-- Fuel-based JSON value scanner (the recursive core of json.loads); the
input is expected to start at a non-whitespace character.  Fuel only bounds
the recursion depth; 2*length+2 always suffices. -/
def parseVal : Nat → Str → Option (JVal × Str)
  | 0, _ => none
  | f + 1, s =>
    match s with
    | [] => none
    | c :: cs =>
      if c = '"' then (parseStringBody cs).map (fun p => (JVal.jstr p.1, p.2))
      else if c = '[' then
        (match skipWs cs with
         | [] => none
         | d :: r2 =>
           if d = ']' then some (JVal.jarr .anil, r2)
           else (parseElems f (d :: r2)).map (fun p => (JVal.jarr p.1, p.2)))
      else if c = '{' then
        (match skipWs cs with
         | [] => none
         | d :: r2 =>
           if d = '}' then some (JVal.jobj .onil, r2)
           else (parseMembers f (d :: r2)).map (fun p => (JVal.jobj p.1, p.2)))
      else if c = 't' then litTrue cs
      else if c = 'f' then litFalse cs
      else if c = 'n' then litNull cs
      else parseNumber (c :: cs)

/-- Parse one or more comma-separated array elements up to the closing
bracket. -/
def parseElems : Nat → Str → Option (JArr × Str)
  | 0, _ => none
  | f + 1, s =>
    match parseVal f s with
    | none => none
    | some (v, rest) =>
      (match skipWs rest with
       | [] => none
       | d :: r2 =>
         if d = ']' then some (.acons v .anil, r2)
         else if d = ',' then
           (match parseElems f (skipWs r2) with
            | some p => some (.acons v p.1, p.2)
            | none => none)
         else none)

/-- Parse one or more key:value object members up to the closing brace. -/
def parseMembers : Nat → Str → Option (JObj × Str)
  | 0, _ => none
  | f + 1, s =>
    match s with
    | [] => none
    | c :: cs =>
      if c = '"' then
        (match parseStringBody cs with
         | none => none
         | some (k, r1) =>
           (match skipWs r1 with
            | [] => none
            | d :: r2 =>
              if d = ':' then
                (match parseVal f (skipWs r2) with
                 | none => none
                 | some (v, r3) =>
                   (match skipWs r3 with
                    | [] => none
                    | d2 :: r4 =>
                      if d2 = '}' then some (.ocons k v .onil, r4)
                      else if d2 = ',' then
                        (match parseMembers f (skipWs r4) with
                         | some p => some (.ocons k v p.1, p.2)
                         | none => none)
                      else none))
              else none))
      else none
end

/-- json.loads: skip surrounding whitespace, parse exactly one value, and
reject trailing data. -/
def jsonLoads (s : Str) : Option JVal :=
  match parseVal (2 * s.length + 2) (skipWs s) with
  | some (v, rest) => if skipWs rest = [] then some v else none
  | none => none

deriving instance DecidableEq for JVal

/-! ### gen_mcq -/

/-- Python str.find for a single character: index of the first occurrence or
-1. -/
def pyFindAux : Str → Char → Nat → Int
  | [], _, _ => -1
  | a :: t, c, i => if a = c then (i : Int) else pyFindAux t c (i + 1)

/-- Python str.find restricted to one-character needles. -/
def pyFind (s : Str) (c : Char) : Int := pyFindAux s c 0

/-- Python str.rfind for a single character: index of the last occurrence or
-1. -/
def pyRFindAux : Str → Char → Nat → Int → Int
  | [], _, _, best => best
  | a :: t, c, i, best => pyRFindAux t c (i + 1) (if a = c then (i : Int) else best)

/-- Python str.rfind restricted to one-character needles. -/
def pyRFind (s : Str) (c : Char) : Int := pyRFindAux s c 0 (-1)

/-- Python slice s[a:b], including the negative-index wrap-around. -/
def pySlice (s : Str) (a b : Int) : Str :=
  let n : Int := (s.length : Int)
  let a2 := if a < 0 then a + n else a
  let b2 := if b < 0 then b + n else b
  ((s.take (min b2 n).toNat).drop (max a2 0).toNat)

/-- One validated quiz item exactly as gen_mcq builds it: the original q
value, the first four options, and the integer-coerced answer key. -/
structure MCQItem where
  q : JVal
  a : List JVal
  key : Int

/-- Python iteration (for item in data) over a parsed JSON value: lists
iterate their elements, dicts their keys, strings their 1-character
substrings; ints, floats, bools and None are not iterable (TypeError). -/
def pyIter : JVal → Option (List JVal)
  | .jarr xs => some xs.toList
  | .jobj ms => some (ms.keys.map JVal.jstr)
  | .jstr s => some (s.map (fun c => JVal.jstr [c]))
  | _ => none

/-- The structural acceptance test of gen_mcq's loop: the element is a dict
with fields q, a and key, whose a field is a list of at least 4 entries.
This is exactly the condition of the if inside the for loop. -/
def structOk (item : JVal) : Bool :=
  match item with
  | .jobj ms =>
    JObj.hasKey ms ("q").data && JObj.hasKey ms ("a").data &&
    JObj.hasKey ms ("key").data &&
    (match JObj.get ms ("a").data with
     | some (.jarr opts) => decide (4 ≤ opts.toList.length)
     | _ => false)
  | _ => false

/-- Field q of an accepted element. -/
def itemQ (it : JVal) : JVal :=
  match it with
  | .jobj ms => (JObj.get ms ("q").data).getD .jnull
  | _ => .jnull

/-- Field a of an accepted element, as a Python list. -/
def itemA (it : JVal) : List JVal :=
  match it with
  | .jobj ms =>
    (match JObj.get ms ("a").data with
     | some (.jarr opts) => opts.toList
     | _ => [])
  | _ => []

/-- Field key of an accepted element. -/
def itemKey (it : JVal) : JVal :=
  match it with
  | .jobj ms => (JObj.get ms ("key").data).getD .jnull
  | _ => .jnull

/-- The item gen_mcq appends for an accepted element. -/
def mkItem (it : JVal) : MCQItem :=
  ⟨itemQ it, (itemA it).take 4, (pyInt (itemKey it)).getD 0⟩

/-- The validation loop of gen_mcq: a structurally invalid element is
silently skipped; a structurally valid element is appended with its options
truncated to 4 and its key int()-coerced — and if that coercion raises, the
exception aborts the whole loop (None), to be recovered as [] by the outer
except. -/
def validateItems : List JVal → Option (List MCQItem)
  | [] => some []
  | item :: rest =>
    if structOk item then
      match pyInt (itemKey item) with
      | some k =>
        (validateItems rest).map (fun v => ⟨itemQ item, (itemA item).take 4, k⟩ :: v)
      | none => none
    else validateItems rest

/-- The substring of the raw response that gen_mcq parses: from the first
opening bracket to one past the last closing bracket, with Python slice
semantics (a failed find contributes -1, which wraps around). -/
def gen_mcq_sliced (raw : Str) : Str :=
  pySlice raw (pyFind raw '[') (pyRFind raw ']' + 1)

/-- gen_mcq from final_project_min.py, as a function of the raw ask_model
response (the generation call itself is external): extract the bracketed
substring, json.loads it, iterate it, validate each element, truncate to n
items; every raised exception (parse failure, non-iterable value, failing
int() coercion) is recovered to the empty list by the except branch. -/
def gen_mcq (raw : Str) (n : Nat) : List MCQItem :=
  match jsonLoads (gen_mcq_sliced raw) with
  | none => []
  | some data =>
    match pyIter data with
    | none => []
    | some items =>
      match validateItems items with
      | none => []
      | some valid => valid.take n

/-! ### Lemmas about the validation loop -/

theorem structOk_le_itemA (it : JVal) (h : structOk it = true) :
    4 ≤ (itemA it).length := by
  cases it with
  | jobj ms =>
    simp only [structOk] at h
    cases hga : JObj.get ms (("a").data) with
    | none => rw [hga] at h; simp at h
    | some va =>
      cases va with
      | jarr opts =>
        rw [hga] at h
        simp only [Bool.and_eq_true, decide_eq_true_eq] at h
        simp only [itemA, hga]
        exact h.2
      | jnull => rw [hga] at h; simp at h
      | jbool b => rw [hga] at h; simp at h
      | jint m => rw [hga] at h; simp at h
      | jstr s => rw [hga] at h; simp at h
      | jobj ms2 => rw [hga] at h; simp at h
  | jnull => simp [structOk] at h
  | jbool b => simp [structOk] at h
  | jint m => simp [structOk] at h
  | jstr s => simp [structOk] at h
  | jarr xs => simp [structOk] at h

theorem validateItems_options (items : List JVal) (v : List MCQItem)
    (hv : validateItems items = some v) :
    ∀ it ∈ v, it.a.length = 4 := by
  induction items generalizing v with
  | nil =>
    simp only [validateItems, Option.some.injEq] at hv
    subst hv
    intro it hit
    cases hit
  | cons item rest ih =>
    simp only [validateItems] at hv
    by_cases hs : structOk item
    · rw [if_pos hs] at hv
      cases hk : pyInt (itemKey item) with
      | none => rw [hk] at hv; simp at hv
      | some k =>
        rw [hk] at hv
        cases hrest : validateItems rest with
        | none => rw [hrest] at hv; simp at hv
        | some v2 =>
          rw [hrest] at hv
          simp only [Option.map_some', Option.some.injEq] at hv
          subst hv
          intro it hit
          rcases List.mem_cons.mp hit with he | he
          · subst he
            simp only [List.length_take]
            have := structOk_le_itemA item hs
            omega
          · exact ih v2 hrest it he
    · rw [if_neg hs] at hv
      exact ih v hv

theorem validateItems_all_skip (items : List JVal)
    (h : ∀ it ∈ items, structOk it = false) :
    validateItems items = some [] := by
  induction items with
  | nil => rfl
  | cons item rest ih =>
    simp only [validateItems]
    rw [if_neg (by simp [h item (List.mem_cons_self item rest)])]
    exact ih (fun it hit => h it (List.mem_cons_of_mem _ hit))

theorem validateItems_accepts (items : List JVal)
    (hall : ∀ it ∈ items, structOk it = true → (pyInt (itemKey it)).isSome = true) :
    validateItems items = some ((items.filter structOk).map mkItem) := by
  induction items with
  | nil => rfl
  | cons item rest ih =>
    have hrest := ih (fun it hit h => hall it (List.mem_cons_of_mem _ hit) h)
    simp only [validateItems]
    by_cases hs : structOk item
    · rw [if_pos hs]
      have hk := hall item (List.mem_cons_self _ _) hs
      cases hkk : pyInt (itemKey item) with
      | none => rw [hkk] at hk; simp at hk
      | some k =>
        rw [hrest]
        simp only [List.filter_cons, hs, if_true, List.map_cons, Option.map_some]
        simp [mkItem, hkk]
    · rw [if_neg hs, hrest]
      simp [List.filter_cons, hs]

theorem validateItems_abort (items : List JVal) (it : JVal) (hit : it ∈ items)
    (hs : structOk it = true) (hk : pyInt (itemKey it) = none) :
    validateItems items = none := by
  induction items with
  | nil => cases hit
  | cons item rest ih =>
    simp only [validateItems]
    rcases List.mem_cons.mp hit with he | he
    · subst he
      rw [if_pos hs, hk]
    · by_cases hsi : structOk item
      · rw [if_pos hsi]
        cases pyInt (itemKey item) with
        | none => rfl
        | some k => rw [ih he]; rfl
      · rw [if_neg hsi]
        exact ih he

/-- C2 (amended): for every raw model response and every requested count n,
gen_mcq returns at most n items, and every returned item has an option list
of exactly 4 entries (not necessarily strings) and an integer key (the key
field has type Int because the loop coerces it with int()). -/
theorem gen_mcq_count_and_shape (raw : Str) (n : Nat) :
    (gen_mcq raw n).length ≤ n ∧
    ∀ it ∈ gen_mcq raw n, it.a.length = 4 := by
  unfold gen_mcq
  cases jsonLoads (gen_mcq_sliced raw) with
  | none => simp
  | some data =>
    dsimp only
    cases pyIter data with
    | none => simp
    | some items =>
      dsimp only
      cases hv : validateItems items with
      | none => simp
      | some valid =>
        dsimp only
        constructor
        · exact List.length_take_le n valid
        · intro it hit
          exact validateItems_options items valid hv it (List.take_subset n valid hit)

theorem gen_mcq_count_and_shape_witness :
    (gen_mcq (("[\x7b\"q\":\"Q\",\"a\":[1,2,3,4,5],\"key\":0\x7d]").data) 5).length ≤ 5 ∧
    (⟨JVal.jstr (("Q").data),
      [JVal.jint 1, JVal.jint 2, JVal.jint 3, JVal.jint 4], 0⟩ : MCQItem).a.length = 4 := by
  refine ⟨(gen_mcq_count_and_shape (("[\x7b\"q\":\"Q\",\"a\":[1,2,3,4,5],\"key\":0\x7d]").data) 5).1, ?_⟩
  exact (gen_mcq_count_and_shape (("[\x7b\"q\":\"Q\",\"a\":[1,2,3,4,5],\"key\":0\x7d]").data) 5).2
    ⟨JVal.jstr (("Q").data), [JVal.jint 1, JVal.jint 2, JVal.jint 3, JVal.jint 4], 0⟩
    (List.Mem.head _)

/-- Test whether a JSON value is a string. -/
def isJStr : JVal → Bool
  | .jstr _ => true
  | _ => false

/-- C2 counterexample: a response whose single element carries numeric
options passes validation: gen_mcq returns one item whose option list has 4
entries, but they are JSON numbers, not strings (the loop never checks the
element type of the option list). -/
theorem gen_mcq_nonstring_options_cex :
    gen_mcq (("[\x7b\"q\":\"Q\",\"a\":[1,2,3,4,5],\"key\":0\x7d]").data) 5 =
      [⟨JVal.jstr (("Q").data),
        [JVal.jint 1, JVal.jint 2, JVal.jint 3, JVal.jint 4], 0⟩] ∧
    ([JVal.jint 1, JVal.jint 2, JVal.jint 3, JVal.jint 4].all isJStr) = false :=
  ⟨rfl, rfl⟩

/-- C4 (amended): within one successfully parsed array, the elements are
accepted or dropped independently ONLY with respect to the structural checks:
an element that is not a dict carrying q, a and key with a list of at least 4
options is silently dropped and all remaining valid elements are still
accepted (first conjunct, where the hypothesis says every structurally valid
element has an int()-convertible key); but an element that passes the
structural checks while its key is NOT convertible raises inside the loop, so
the whole parse aborts and nothing at all is returned (second conjunct). -/
theorem gen_mcq_element_acceptance (items : List JVal) :
    ((∀ it ∈ items, structOk it = true → (pyInt (itemKey it)).isSome = true) →
      validateItems items = some ((items.filter structOk).map mkItem)) ∧
    (∀ it ∈ items, structOk it = true → pyInt (itemKey it) = none →
      validateItems items = none) :=
  ⟨validateItems_accepts items,
   fun it hit hs hk => validateItems_abort items it hit hs hk⟩

/-- A structurally valid quiz element with integer key 0. -/
def goodItem : JVal :=
  JVal.jobj (.ocons ("q").data (.jstr ("Q1").data)
    (.ocons ("a").data (.jarr (.acons (.jstr ("A").data) (.acons (.jstr ("B").data)
      (.acons (.jstr ("C").data) (.acons (.jstr ("D").data) .anil)))))
    (.ocons ("key").data (.jint 0) .onil)))

/-- A structurally valid quiz element whose key zz is not int()-convertible. -/
def badKeyItem : JVal :=
  JVal.jobj (.ocons ("q").data (.jstr ("Q2").data)
    (.ocons ("a").data (.jarr (.acons (.jstr ("A").data) (.acons (.jstr ("B").data)
      (.acons (.jstr ("C").data) (.acons (.jstr ("D").data) .anil)))))
    (.ocons ("key").data (.jstr ("zz").data) .onil)))

theorem gen_mcq_element_acceptance_witness :
    validateItems [JVal.jnull, goodItem] = some [mkItem goodItem] ∧
    validateItems [goodItem, badKeyItem] = none := by
  constructor
  · exact ((gen_mcq_element_acceptance [JVal.jnull, goodItem]).1 (by decide)).trans rfl
  · exact (gen_mcq_element_acceptance [goodItem, badKeyItem]).2 badKeyItem
      (by decide) (by decide) rfl

/-- C4 counterexample: in the two-element response below the second element
passes every structural check but its key zz fails int() coercion; the claim
says that element alone is silently dropped and the valid first element is
still returned, yet gen_mcq returns the empty list — while the same first
element alone IS accepted (second conjunct). -/
theorem gen_mcq_badkey_aborts_cex :
    gen_mcq (("[\x7b\"q\":\"Q1\",\"a\":[\"A\",\"B\",\"C\",\"D\"],\"key\":0\x7d,\x7b\"q\":\"Q2\",\"a\":[\"A\",\"B\",\"C\",\"D\"],\"key\":\"zz\"\x7d]").data) 5 = [] ∧
    gen_mcq (("[\x7b\"q\":\"Q1\",\"a\":[\"A\",\"B\",\"C\",\"D\"],\"key\":0\x7d]").data) 5 =
      [⟨JVal.jstr (("Q1").data),
        [JVal.jstr (("A").data), JVal.jstr (("B").data),
         JVal.jstr (("C").data), JVal.jstr (("D").data)], 0⟩] :=
  ⟨rfl, rfl⟩

/-- C5: whenever the bracket-extracted substring of the raw response does not
parse as JSON, or parses to anything other than an array (a dict, string,
number, boolean or null at top level), gen_mcq returns the empty list — and,
being a total function, it raises nothing. -/
theorem gen_mcq_no_array_is_empty (raw : Str) (n : Nat)
    (h : match jsonLoads (gen_mcq_sliced raw) with
         | some (.jarr _) => False
         | _ => True) :
    gen_mcq raw n = [] := by
  unfold gen_mcq
  cases hj : jsonLoads (gen_mcq_sliced raw) with
  | none => rfl
  | some data =>
    rw [hj] at h
    dsimp only
    cases data with
    | jnull => rfl
    | jbool b => rfl
    | jint m => rfl
    | jarr xs => exact h.elim
    | jstr s =>
      have hall : ∀ it ∈ s.map (fun c => JVal.jstr [c]), structOk it = false := by
        intro it hit
        rcases List.mem_map.mp hit with ⟨c, _, hc⟩
        rw [← hc]
        rfl
      have hv := validateItems_all_skip _ hall
      simp [pyIter, hv]
    | jobj ms =>
      have hall : ∀ it ∈ ms.keys.map JVal.jstr, structOk it = false := by
        intro it hit
        rcases List.mem_map.mp hit with ⟨k, _, hk⟩
        rw [← hk]
        rfl
      have hv := validateItems_all_skip _ hall
      simp [pyIter, hv]

theorem gen_mcq_no_array_is_empty_witness :
    gen_mcq (("tidak ada array JSON di sini").data) 5 = [] :=
  gen_mcq_no_array_is_empty (("tidak ada array JSON di sini").data) 5 True.intro

/-- C6: gen_mcq parses only the substring between the first opening bracket
and one past the last closing bracket: on the scenario response, which wraps
the JSON array in explanatory prose, the extracted slice is exactly the
array, and the result is a single quiz item with 4 options and correct
index 2. -/
theorem gen_mcq_scenario_prose :
    gen_mcq_sliced (("Here are your questions:\n[\x7b\"q\":\"Q1\",\"a\":[\"A\",\"B\",\"C\",\"D\"],\"key\":2\x7d]").data) =
      ("[\x7b\"q\":\"Q1\",\"a\":[\"A\",\"B\",\"C\",\"D\"],\"key\":2\x7d]").data ∧
    gen_mcq (("Here are your questions:\n[\x7b\"q\":\"Q1\",\"a\":[\"A\",\"B\",\"C\",\"D\"],\"key\":2\x7d]").data) 5 =
      [⟨JVal.jstr (("Q1").data),
        [JVal.jstr (("A").data), JVal.jstr (("B").data),
         JVal.jstr (("C").data), JVal.jstr (("D").data)], 2⟩] :=
  ⟨rfl, rfl⟩

/-! ### build_kb_text -/

/-- An uploaded file as build_kb_text sees it: its declared name and the
text its reader yields.  Modelled from the spec: read_text_file's
utf-8/latin-1 byte decoding and extract_pdf's page-by-page extraction are
byte-level external concerns (TextIngestor), so the model carries the decoded
text of each source directly. -/
structure PyFile where
  name : Str
  text : Str

/-- Python str.lower on file names. -/
def pyLower (s : Str) : Str := s.map Char.toLower

/-- Python str.endswith. -/
def endsWithStr (s suf : Str) : Bool := suf.isSuffixOf s

/-- Target chunk size of the splitter (characters). -/
def chunkSize : Nat := 1200

/-- Overlap between consecutive chunks (characters). -/
def chunkOverlap : Nat := 150

/-- Split at every occurrence of a one-character separator, keeping empty
pieces for the caller to filter. -/
def splitOn1 (c : Char) : Str → Str → List Str
  | [], acc => [acc.reverse]
  | x :: t, acc =>
    if x = c then acc.reverse :: splitOn1 c t []
    else splitOn1 c t (x :: acc)

/-- Split at every non-overlapping occurrence of a two-character separator. -/
def splitOn2 (a b : Char) : Str → Str → List Str
  | [], acc => [acc.reverse]
  | [x], acc => [(x :: acc).reverse]
  | x :: y :: t, acc =>
    if x = a && y = b then acc.reverse :: splitOn2 a b t []
    else splitOn2 a b (y :: t) (x :: acc)

/-- The separator hierarchy the splitter tries, in the spec's order:
paragraph breaks, line breaks, word boundaries. -/
inductive SepKind where
  | para
  | line
  | word

/-- The separator string of each level. -/
def sepStr : SepKind → Str
  | .para => ('\n') :: ('\n') :: []
  | .line => ['\n']
  | .word => [' ']

/-- Split a text at one separator level, dropping empty pieces. -/
def splitBySep : SepKind → Str → List Str
  | .para, s => (splitOn2 '\n' '\n' s []).filter (fun p => !p.isEmpty)
  | .line, s => (splitOn1 '\n' s []).filter (fun p => !p.isEmpty)
  | .word, s => (splitOn1 ' ' s []).filter (fun p => !p.isEmpty)

/-- Length of the separator-joined accumulated pieces. -/
def docLen (sep : Str) (cur : List Str) : Nat :=
  sumLens cur + sep.length * (cur.length - 1)

/-- After emitting a chunk, retain a tail of the accumulated pieces whose
joined length fits in the overlap budget and leaves room for the next piece:
the sliding-window overlap of the splitter, modelled from the spec. -/
def dropForOverlap (sep : Str) (dlen : Nat) : List Str → List Str
  | [] => []
  | c :: cs =>
    if chunkOverlap < docLen sep (c :: cs) ∨
        (chunkSize < docLen sep (c :: cs) + dlen + sep.length ∧
          0 < docLen sep (c :: cs)) then
      dropForOverlap sep dlen cs
    else c :: cs

/-- Greedy merge of small pieces into chunks of at most the target size,
carrying the overlap between consecutive chunks: the merge loop of the
splitter, modelled from the spec. -/
def mergeGo (sep : Str) : List Str → List Str → List Str
  | cur, [] => if cur.isEmpty then [] else [pyJoin sep cur]
  | cur, d :: ds =>
    if chunkSize < docLen sep cur + (if cur.isEmpty then 0 else sep.length) + d.length
        ∧ ¬ cur.isEmpty then
      pyJoin sep cur :: mergeGo sep (dropForOverlap sep d.length cur ++ [d]) ds
    else mergeGo sep (cur ++ [d]) ds

/-- Hard character cuts: windows of the target size advancing by
size - overlap, the final fallback when no natural boundary exists.  Fuel
bounds the number of windows; the input length always suffices. -/
def hardCut : Nat → Str → List Str
  | 0, _ => []
  | f + 1, s =>
    if s.length ≤ chunkSize then [s]
    else s.take chunkSize :: hardCut f (s.drop (chunkSize - chunkOverlap))

/-- Recursive-boundary splitter, modelled from the spec (ContextBuilder):
prefer splitting on paragraph breaks, then line breaks, then word
boundaries, falling back to hard character cuts; pieces that fit the target
size are greedily merged with overlap.  Fuel bounds the recursion depth; 4
suffices for the three-level hierarchy. -/
def splitRecF : Nat → List SepKind → Str → List Str
  | 0, _, _ => []
  | f + 1, seps, s =>
    if s.length ≤ chunkSize then [s]
    else
      match seps with
      | [] => hardCut s.length s
      | sep :: rest =>
        let pieces := splitBySep sep s
        let smalls := (pieces.map (fun p =>
          if p.length ≤ chunkSize then [p] else splitRecF f rest p)).flatten
        mergeGo (sepStr sep) [] smalls

/-- The splitter entry point: RecursiveCharacterTextSplitter(1200, 150),
modelled from the spec. -/
def split_text (s : Str) : List Str :=
  splitRecF 4 [SepKind.para, SepKind.line, SepKind.word] s

/-- The context-budget loop of build_kb_text: keep accumulating chunks while
the running total of their lengths stays within the 25000-character limit;
stop at the first chunk that would overflow it. -/
def budgetLoop : List Str → Nat → List Str
  | [], _ => []
  | c :: rest, size =>
    if 25000 < size + c.length then []
    else c :: budgetLoop rest (size + c.length)

/-- Text contributed by each uploaded file, in upload order: .txt/.md files
contribute their decoded text unconditionally, .pdf files contribute their
extracted text only when non-empty, any other extension is ignored. -/
def fileTexts (files : List PyFile) : List Str :=
  files.flatMap (fun f =>
    if endsWithStr (pyLower f.name) ((".txt").data) ||
        endsWithStr (pyLower f.name) ((".md").data) then [f.text]
    else if endsWithStr (pyLower f.name) ((".pdf").data) then
      (if f.text.isEmpty then [] else [f.text])
    else [])

/-- The joined source text of build_kb_text: file texts first, then the
stripped pasted text if non-blank, empty strings dropped, joined with blank
lines. -/
def kb_full (files : List PyFile) (pasted : Str) : Str :=
  pyJoin (("\n\n").data)
    ((fileTexts files ++
      (if (pyStrip pasted).isEmpty then [] else [pyStrip pasted])).filter
        (fun t => !t.isEmpty))

/-- The chunk prefix build_kb_text keeps within the 25000-character budget. -/
def kb_chunks (files : List PyFile) (pasted : Str) : List Str :=
  budgetLoop (split_text (kb_full files pasted)) 0

/-- build_kb_text from final_project_min.py: gather file and pasted texts,
return the empty string when nothing remains, otherwise split into chunks,
keep a prefix within the 25000-character budget, and re-join the kept chunks
with blank lines. -/
def build_kb_text (files : List PyFile) (pasted : Str) : Str :=
  if (kb_full files pasted).isEmpty then []
  else pyJoin (("\n\n").data) (kb_chunks files pasted)

/-! ### C1 lemmas: the budget and the counterexample -/

theorem sumLens_cons (x : Str) (t : List Str) :
    sumLens (x :: t) = x.length + sumLens t := by
  simp [sumLens]

theorem sumLens_replicate (k : Nat) (x : Str) :
    sumLens (List.replicate k x) = k * x.length := by
  induction k with
  | zero => simp [sumLens]
  | succ m ih =>
    rw [List.replicate_succ, sumLens_cons, ih]
    ring

theorem pyJoin_length (sep : Str) (l : List Str) :
    (pyJoin sep l).length = sumLens l + sep.length * (l.length - 1) := by
  induction l with
  | nil => simp [pyJoin, sumLens]
  | cons x t ih =>
    cases t with
    | nil => simp [pyJoin, sumLens]
    | cons y u =>
      simp only [pyJoin] at ih ⊢
      rw [List.length_append, List.length_append, ih]
      have e1 : (y :: u).length - 1 = u.length := by simp
      have e2 : (x :: y :: u).length - 1 = u.length + 1 := by simp
      rw [e1, e2, sumLens_cons x (y :: u), sumLens_cons y u]
      rw [sumLens_cons y u] at *
      ring_nf

theorem budgetLoop_sum (chunks : List Str) (size : Nat) (h : size ≤ 25000) :
    size + sumLens (budgetLoop chunks size) ≤ 25000 := by
  induction chunks generalizing size with
  | nil => simpa [budgetLoop, sumLens]
  | cons c rest ih =>
    simp only [budgetLoop]
    by_cases hc : 25000 < size + c.length
    · rw [if_pos hc]
      simpa [sumLens] using h
    · rw [if_neg hc]
      have h2 := ih (size + c.length) (by omega)
      rw [sumLens_cons]
      omega

/-- C1 (amended): for every list of ingested files and every pasted string,
the total length of the chunks build_kb_text keeps — not counting the
blank-line separators used to re-join them — is at most 25000 characters;
counting the separators, the returned blob can exceed 25000 only by the two
characters of each separator, i.e. by at most 2*(k-1) for k kept chunks. -/
theorem build_kb_text_budget (files : List PyFile) (pasted : Str) :
    sumLens (kb_chunks files pasted) ≤ 25000 ∧
    (build_kb_text files pasted).length ≤
      25000 + 2 * ((kb_chunks files pasted).length - 1) := by
  have hsum := budgetLoop_sum (split_text (kb_full files pasted)) 0 (by omega)
  simp only [Nat.zero_add] at hsum
  constructor
  · exact hsum
  · unfold build_kb_text
    by_cases hful : (kb_full files pasted).isEmpty
    · rw [if_pos hful]
      simp
    · rw [if_neg hful]
      rw [pyJoin_length]
      have h2 : (("\n\n").data).length = 2 := rfl
      rw [h2]
      unfold kb_chunks
      omega

/-- A 1190-letter paragraph. -/
def cexPara : Str := List.replicate 1190 'a'

/-- Twentyone such paragraphs joined by blank lines: 25030 characters. -/
def cexText : Str := pyJoin (("\n\n").data) (List.replicate 21 cexPara)

/-- An uploaded .txt file carrying that text. -/
def cexFile : PyFile := ⟨("notes.txt").data, cexText⟩

theorem cexPara_length : cexPara.length = 1190 := by
  simp [cexPara]

theorem cexText_length : cexText.length = 25030 := by
  unfold cexText
  rw [pyJoin_length, sumLens_replicate, List.length_replicate, cexPara_length]
  have h2 : (("\n\n").data).length = 2 := rfl
  rw [h2]

theorem splitOn2_no_sep (a b : Char) (p : Str) :
    ∀ acc, (∀ c ∈ p, ¬ c = a) → splitOn2 a b p acc = [acc.reverse ++ p] := by
  induction p with
  | nil =>
    intro acc _
    simp [splitOn2]
  | cons x q ih =>
    intro acc h
    have hx : ¬ x = a := h x (List.mem_cons_self x q)
    have hq : ∀ c ∈ q, ¬ c = a := fun c hc => h c (List.mem_cons_of_mem _ hc)
    cases q with
    | nil => simp [splitOn2]
    | cons y r =>
      simp only [splitOn2]
      rw [if_neg (by simp [hx])]
      rw [ih (x :: acc) hq]
      simp

theorem splitOn2_piece (a b : Char) (p : Str) :
    ∀ acc rest, (∀ c ∈ p, ¬ c = a) →
      splitOn2 a b (p ++ a :: b :: rest) acc =
        (acc.reverse ++ p) :: splitOn2 a b rest [] := by
  induction p with
  | nil =>
    intro acc rest _
    simp only [List.nil_append, splitOn2]
    rw [if_pos (by simp)]
    simp
  | cons x q ih =>
    intro acc rest h
    have hx : ¬ x = a := h x (List.mem_cons_self x q)
    have hq : ∀ c ∈ q, ¬ c = a := fun c hc => h c (List.mem_cons_of_mem _ hc)
    cases q with
    | nil =>
      simp only [List.cons_append, List.nil_append, splitOn2]
      rw [if_neg (by simp [hx]), if_pos (by simp)]
      simp
    | cons y r =>
      simp only [List.cons_append] at ih ⊢
      simp only [splitOn2]
      rw [if_neg (by simp [hx])]
      rw [ih (x :: acc) rest hq]
      simp

theorem splitOn2_pyJoin (a b : Char) (ps : List Str)
    (hne : ∀ p ∈ ps, p ≠ []) (hns : ∀ p ∈ ps, ∀ c ∈ p, ¬ c = a) (h : ps ≠ []) :
    splitOn2 a b (pyJoin (a :: b :: []) ps) [] = ps := by
  induction ps with
  | nil => cases h rfl
  | cons x t ih =>
    cases t with
    | nil =>
      simp only [pyJoin]
      rw [splitOn2_no_sep a b x [] (hns x (List.mem_cons_self x []))]
      simp
    | cons y r =>
      simp only [pyJoin]
      rw [List.append_assoc]
      simp only [List.cons_append, List.nil_append]
      rw [splitOn2_piece a b x [] (pyJoin (a :: b :: []) (y :: r))
        (hns x (List.mem_cons_self x (y :: r)))]
      simp only [List.reverse_nil, List.nil_append]
      rw [ih (fun p hp => hne p (List.mem_cons_of_mem _ hp))
        (fun p hp => hns p (List.mem_cons_of_mem _ hp)) (by simp)]

theorem splitBySep_cex : splitBySep SepKind.para cexText = List.replicate 21 cexPara := by
  simp only [splitBySep]
  have h1 : splitOn2 '\n' '\n' cexText [] = List.replicate 21 cexPara := by
    unfold cexText
    have hsep : ("\n\n").data = '\n' :: '\n' :: [] := rfl
    rw [hsep]
    refine splitOn2_pyJoin '\n' '\n' (List.replicate 21 cexPara) ?_ ?_ (by simp)
    · intro p hp
      rw [List.eq_of_mem_replicate hp]
      intro hc
      have := congrArg List.length hc
      rw [cexPara_length] at this
      simp at this
    · intro p hp c hc
      rw [List.eq_of_mem_replicate hp] at hc
      rw [List.eq_of_mem_replicate hc]
      decide
  rw [h1]
  refine List.filter_eq_self.mpr ?_
  intro p hp
  rw [List.eq_of_mem_replicate hp]
  rfl

theorem docLen_single_cex : docLen (sepStr SepKind.para) [cexPara] = 1190 := by
  simp [docLen, sumLens, cexPara]

theorem dropForOverlap_cex (dlen : Nat) :
    dropForOverlap (sepStr SepKind.para) dlen [cexPara] = [] := by
  simp only [dropForOverlap]
  rw [if_pos (Or.inl (by rw [docLen_single_cex]; norm_num [chunkOverlap]))]

theorem mergeGo_cex_inner :
    ∀ k, mergeGo (sepStr SepKind.para) [cexPara] (List.replicate k cexPara) =
      List.replicate (k + 1) cexPara := by
  intro k
  induction k with
  | zero =>
    simp only [List.replicate, mergeGo]
    rw [if_neg (by simp)]
    rfl
  | succ m ih =>
    rw [List.replicate_succ]
    simp only [mergeGo]
    rw [if_pos ?hc]
    case hc =>
      constructor
      · rw [docLen_single_cex, cexPara_length]
        have hs : (sepStr SepKind.para).length = 2 := rfl
        rw [if_neg (by simp)]
        rw [hs]
        norm_num [chunkSize]
      · simp
    rw [dropForOverlap_cex]
    simp only [List.nil_append]
    rw [ih]
    rw [show (m + 1) + 1 = (m + 2) from rfl, List.replicate_succ]
    rfl

theorem mergeGo_nil_step (sep : Str) (d : Str) (ds : List Str) :
    mergeGo sep [] (d :: ds) = mergeGo sep [d] ds := by
  simp only [mergeGo]
  rw [if_neg (by simp)]
  simp

theorem mergeGo_cex :
    mergeGo (sepStr SepKind.para) [] (List.replicate 21 cexPara) =
      List.replicate 21 cexPara := by
  rw [show (21 : Nat) = 20 + 1 from rfl, List.replicate_succ]
  rw [mergeGo_nil_step]
  exact mergeGo_cex_inner 20

theorem flatten_replicate_singleton (k : Nat) (x : Str) :
    (List.replicate k [x]).flatten = List.replicate k x := by
  induction k with
  | zero => rfl
  | succ m ih =>
    rw [List.replicate_succ, List.replicate_succ, List.flatten_cons, ih]
    rfl

theorem split_text_cex : split_text cexText = List.replicate 21 cexPara := by
  unfold split_text
  rw [show (4 : Nat) = 3 + 1 from rfl]
  simp only [splitRecF]
  rw [if_neg (by rw [cexText_length]; norm_num [chunkSize])]
  rw [splitBySep_cex, List.map_replicate]
  rw [if_pos (by rw [cexPara_length]; norm_num [chunkSize])]
  rw [flatten_replicate_singleton]
  exact mergeGo_cex

theorem kb_full_cex : kb_full [cexFile] [] = cexText := rfl

theorem budgetLoop_cex :
    ∀ k size, size + k * 1190 ≤ 25000 →
      budgetLoop (List.replicate k cexPara) size = List.replicate k cexPara := by
  intro k
  induction k with
  | zero => intro size _; rfl
  | succ m ih =>
    intro size h
    rw [List.replicate_succ]
    simp only [budgetLoop]
    rw [cexPara_length]
    rw [if_neg (by omega)]
    rw [ih (size + 1190) (by omega)]

/-- C1 counterexample: a single uploaded .txt file of 21 paragraphs of 1190
letters produces 21 chunks of 1190 characters; their total length 24990 is
within the 25000 budget, so all are kept, and the blob re-joined with the 20
two-character blank-line separators has 25030 characters — more than 25000
once the separators are counted, as the claim requires. -/
theorem build_kb_text_over_budget_cex :
    25000 < (build_kb_text [cexFile] []).length := by
  have hchunks : kb_chunks [cexFile] [] = List.replicate 21 cexPara := by
    unfold kb_chunks
    rw [kb_full_cex, split_text_cex]
    exact budgetLoop_cex 21 0 (by norm_num)
  have hne : ¬ ((kb_full [cexFile] []).isEmpty = true) := by
    rw [kb_full_cex]
    intro hc
    have := congrArg List.length (List.isEmpty_iff.mp hc)
    rw [cexText_length] at this
    simp at this
  unfold build_kb_text
  rw [if_neg hne, hchunks, pyJoin_length, sumLens_replicate, List.length_replicate,
    cexPara_length]
  have h2 : (("\n\n").data).length = 2 := rfl
  rw [h2]
  norm_num

/-! ### json.dumps (ensure_ascii=False, indent=2) and the export/import tab -/

/-- Lowercase hexadecimal digit. -/
def hexDigit (d : Nat) : Char :=
  if d < 10 then digitChar d else Char.ofNat (87 + d)

/-- The escape json.dumps applies to one character with ensure_ascii=False:
quote and backslash escaped, the five short control escapes, other control
characters as \u00xx, everything else (including non-ASCII) literal. -/
def escapeChar (c : Char) : Str :=
  if c = '"' then '\\' :: '"' :: []
  else if c = '\\' then '\\' :: '\\' :: []
  else if c = '\n' then '\\' :: 'n' :: []
  else if c = '\r' then '\\' :: 'r' :: []
  else if c = '\t' then '\\' :: 't' :: []
  else if c = '\x08' then '\\' :: 'b' :: []
  else if c = '\x0c' then '\\' :: 'f' :: []
  else if c.toNat < 32 then
    '\\' :: 'u' :: '0' :: '0' :: hexDigit (c.toNat / 16) :: hexDigit (c.toNat % 16) :: []
  else [c]

/-- Escape a whole string body. -/
def escString : Str → Str
  | [] => []
  | c :: t => escapeChar c ++ escString t

/-- A rendered JSON string literal. -/
def renderStr (s : Str) : Str := '"' :: escString s ++ ['"']

/-- The newline plus indentation json.dumps(indent=2) inserts before an
entry at the given nesting level. -/
def nlIndent (lvl : Nat) : Str := '\n' :: List.replicate (2 * lvl) ' '

mutual
/-- Render a JSON value as json.dumps(ensure_ascii=False, indent=2) does, at
the given nesting level. -/
def renderVal : Nat → JVal → Str
  | _, .jnull => 'n' :: 'u' :: 'l' :: 'l' :: []
  | _, .jbool true => 't' :: 'r' :: 'u' :: 'e' :: []
  | _, .jbool false => 'f' :: 'a' :: 'l' :: 's' :: 'e' :: []
  | _, .jint n => intToStr n
  | _, .jstr s => renderStr s
  | _, .jarr .anil => '[' :: ']' :: []
  | lvl, .jarr (.acons v tl) =>
    '[' :: (nlIndent (lvl + 1) ++ renderElems (lvl + 1) v tl ++ nlIndent lvl ++ [']'])
  | _, .jobj .onil => '\x7b' :: '\x7d' :: []
  | lvl, .jobj (.ocons k v tl) =>
    '\x7b' :: (nlIndent (lvl + 1) ++ renderMembers (lvl + 1) k v tl ++ nlIndent lvl ++ ['\x7d'])
termination_by lvl v => sizeOf v

/-- Render the elements of a non-empty array, separated by comma, newline
and indentation. -/
def renderElems : Nat → JVal → JArr → Str
  | lvl, v, .anil => renderVal lvl v
  | lvl, v, .acons w tl =>
    renderVal lvl v ++ ',' :: nlIndent lvl ++ renderElems lvl w tl
termination_by lvl v tl => sizeOf v + sizeOf tl

/-- Render the members of a non-empty object: quoted key, colon and space,
value, separated by comma, newline and indentation. -/
def renderMembers : Nat → Str → JVal → JObj → Str
  | lvl, k, v, .onil => renderStr k ++ ':' :: ' ' :: renderVal lvl v
  | lvl, k, v, .ocons k2 v2 tl =>
    renderStr k ++ ':' :: ' ' :: renderVal lvl v ++
      ',' :: nlIndent lvl ++ renderMembers lvl k2 v2 tl
termination_by lvl k v tl => sizeOf v + sizeOf tl
end

/-- json.dumps of a value, starting at nesting level 0. -/
def jsonDumps (v : JVal) : Str := renderVal 0 v

/-- One chat turn (role, text) as stored in the session messages. -/
structure ChatTurn where
  role : Str
  text : Str

/-- One grading row of the quiz result, as the submit handler builds it. -/
structure QuizRow where
  no : Int
  question : Str
  answer : Str
  correct : Str
  is_correct : Bool

/-- The stored last quiz result: score, grading rows, creation timestamp. -/
structure QuizResult where
  score : Int
  rows : List QuizRow
  created_at : Str

/-- The Python dict of one chat turn. -/
def turnToJVal (t : ChatTurn) : JVal :=
  .jobj (.ocons ("role").data (.jstr t.role)
    (.ocons ("text").data (.jstr t.text) .onil))

/-- The Python list of chat turns. -/
def turnsToJArr : List ChatTurn → JArr
  | [] => .anil
  | t :: ts => .acons (turnToJVal t) (turnsToJArr ts)

/-- The Python dict of one grading row. -/
def rowToJVal (r : QuizRow) : JVal :=
  .jobj (.ocons ("no").data (.jint r.no)
    (.ocons ("question").data (.jstr r.question)
    (.ocons ("answer").data (.jstr r.answer)
    (.ocons ("correct").data (.jstr r.correct)
    (.ocons ("is_correct").data (.jbool r.is_correct) .onil)))))

/-- The Python list of grading rows. -/
def rowsToJArr : List QuizRow → JArr
  | [] => .anil
  | r :: rs => .acons (rowToJVal r) (rowsToJArr rs)

/-- The Python dict of the last quiz result. -/
def resultToJVal (q : QuizResult) : JVal :=
  .jobj (.ocons ("score").data (.jint q.score)
    (.ocons ("rows").data (.jarr (rowsToJArr q.rows))
    (.ocons ("created_at").data (.jstr q.created_at) .onil)))

/-- The export dict the export tab serializes: messages, kb_text, and the
last quiz result or None when absent. -/
def dumpObj (msgs : List ChatTurn) (kb : Str) (lastq : Option QuizResult) : JVal :=
  .jobj (.ocons ("messages").data (.jarr (turnsToJArr msgs))
    (.ocons ("kb_text").data (.jstr kb)
    (.ocons ("last_quiz_result").data
      (match lastq with | some q => resultToJVal q | none => .jnull) .onil)))

/-- json.dumps(dump, ensure_ascii=False, indent=2): the exported document. -/
def exportJson (msgs : List ChatTurn) (kb : Str) (lastq : Option QuizResult) : Str :=
  jsonDumps (dumpObj msgs kb lastq)

/-- The mutable session fields the import handler assigns. -/
structure SessionState where
  messages : JVal
  kb_text : JVal
  last_quiz_result : Option JVal

/-- Python truthiness of a JSON value, as the import handler's
if data.get("last_quiz_result") tests it. -/
def pyTruthy : JVal → Bool
  | .jnull => false
  | .jbool b => b
  | .jint n => decide (¬ n = 0)
  | .jstr s => !s.isEmpty
  | .jarr .anil => false
  | .jarr (.acons _ _) => true
  | .jobj .onil => false
  | .jobj (.ocons _ _ _) => true

/-- The import handler of the export tab: json.loads the uploaded document;
on success the fields are stored with dict.get defaults, and the quiz result
only when truthy; if loads raises, or the top level is not a dict (so that
data.get raises AttributeError before any assignment), the except branch
reports the error with its detail and the state is untouched. -/
def importJson (st : SessionState) (doc : Str) : SessionState × Option Str :=
  match jsonLoads doc with
  | none => (st, some (("Gagal import JSON").data))
  | some data =>
    match data with
    | .jobj ms =>
      ({ messages := (JObj.get ms ("messages").data).getD (.jarr .anil),
         kb_text := (JObj.get ms ("kb_text").data).getD (.jstr []),
         last_quiz_result :=
           if pyTruthy ((JObj.get ms ("last_quiz_result").data).getD .jnull) then
             some ((JObj.get ms ("last_quiz_result").data).getD .jnull)
           else st.last_quiz_result },
       none)
    | _ => (st, some (("Gagal import JSON").data))

/-- C9: an import document that fails to parse — or whose top level is not a
dict, so that data.get raises before any assignment — makes the handler
report a descriptive error while every session field (messages, kb_text,
last_quiz_result) is left exactly as it was: no partial import occurs. -/
theorem importJson_failure_state_unchanged (st : SessionState) (doc : Str)
    (h : jsonLoads doc = none ∨ ∀ ms, ¬ jsonLoads doc = some (.jobj ms)) :
    (importJson st doc).1 = st ∧ (importJson st doc).2.isSome = true := by
  unfold importJson
  cases hj : jsonLoads doc with
  | none => exact ⟨rfl, rfl⟩
  | some data =>
    dsimp only
    cases data with
    | jobj ms =>
      rcases h with h | h
      · rw [hj] at h
        cases h
      · exact absurd hj (h ms)
    | jnull => exact ⟨rfl, rfl⟩
    | jbool b => exact ⟨rfl, rfl⟩
    | jint n => exact ⟨rfl, rfl⟩
    | jstr s => exact ⟨rfl, rfl⟩
    | jarr xs => exact ⟨rfl, rfl⟩

theorem importJson_failure_state_unchanged_witness :
    (importJson ⟨.jarr .anil, .jstr [], none⟩ (("bukan json").data)).1 =
      ⟨.jarr .anil, .jstr [], none⟩ ∧
    (importJson ⟨.jarr .anil, .jstr [], none⟩ (("bukan json").data)).2.isSome = true :=
  importJson_failure_state_unchanged ⟨.jarr .anil, .jstr [], none⟩
    (("bukan json").data) (Or.inl rfl)

/-! ### Decimal print/parse lemmas -/

theorem digitChar_toNat (d : Nat) (h : d < 10) : (digitChar d).toNat = 48 + d := by
  interval_cases d <;> decide

theorem digitChar_isDigit (d : Nat) (h : d < 10) : (digitChar d).isDigit = true := by
  interval_cases d <;> decide

theorem digitChar_ne_zero (d : Nat) (h1 : 1 ≤ d) (h2 : d < 10) :
    ¬ digitChar d = '0' := by
  interval_cases d <;> decide

theorem natDigitsAux_acc (f : Nat) :
    ∀ n acc, natDigitsAux f n acc = natDigitsAux f n [] ++ acc := by
  induction f with
  | zero => intro n acc; rfl
  | succ g ih =>
    intro n acc
    simp only [natDigitsAux]
    by_cases h : n < 10
    · rw [if_pos h, if_pos h]
      rfl
    · rw [if_neg h, if_neg h]
      rw [ih (n / 10) (digitChar (n % 10) :: acc), ih (n / 10) [digitChar (n % 10)]]
      simp

theorem natDigitsAux_fuel (n : Nat) : ∀ f g acc, n ≤ f → n ≤ g →
    natDigitsAux (f + 1) n acc = natDigitsAux (g + 1) n acc := by
  induction n using Nat.strong_induction_on with
  | _ n ih =>
    intro f g acc hf hg
    simp only [natDigitsAux]
    by_cases h : n < 10
    · rw [if_pos h, if_pos h]
    · rw [if_neg h, if_neg h]
      obtain ⟨f2, rfl⟩ : ∃ f2, f = f2 + 1 := ⟨f - 1, by omega⟩
      obtain ⟨g2, rfl⟩ : ∃ g2, g = g2 + 1 := ⟨g - 1, by omega⟩
      have hlt : n / 10 < n := Nat.div_lt_self (by omega) (by norm_num)
      exact ih (n / 10) hlt f2 g2 _ (by omega) (by omega)

theorem natToStr_lt (n : Nat) (h : n < 10) : natToStr n = [digitChar n] := by
  unfold natToStr
  simp only [natDigitsAux]
  rw [if_pos h]

theorem natToStr_ge (n : Nat) (h : 10 ≤ n) :
    natToStr n = natToStr (n / 10) ++ [digitChar (n % 10)] := by
  conv =>
    lhs
    unfold natToStr
  simp only [natDigitsAux]
  rw [if_neg (by omega)]
  rw [natDigitsAux_acc]
  obtain ⟨m, rfl⟩ : ∃ m, n = m + 1 := ⟨n - 1, by omega⟩
  have hdiv : (m + 1) / 10 ≤ m := by
    have := Nat.div_lt_self (n := m + 1) (by omega) (by norm_num : (1:Nat) < 10)
    omega
  rw [natDigitsAux_fuel ((m + 1) / 10) m ((m + 1) / 10) [] hdiv (le_refl _)]
  rfl

theorem digitsVal_append (xs ys : Str) :
    ∀ a, digitsVal (xs ++ ys) a = digitsVal ys (digitsVal xs a) := by
  induction xs with
  | nil => intro a; rfl
  | cons c t ih =>
    intro a
    simp only [List.cons_append, digitsVal]
    exact ih _

theorem digitsVal_natToStr (n : Nat) : digitsVal (natToStr n) 0 = n := by
  induction n using Nat.strong_induction_on with
  | _ n ih =>
    by_cases h : n < 10
    · rw [natToStr_lt n h]
      simp only [digitsVal]
      rw [digitChar_toNat n h]
      omega
    · rw [natToStr_ge n (by omega), digitsVal_append,
        ih (n / 10) (Nat.div_lt_self (by omega) (by norm_num))]
      simp only [digitsVal]
      rw [digitChar_toNat _ (Nat.mod_lt n (by norm_num))]
      omega

theorem natToStr_digits (n : Nat) : ∀ c ∈ natToStr n, c.isDigit = true := by
  induction n using Nat.strong_induction_on with
  | _ n ih =>
    intro c hc
    by_cases h : n < 10
    · rw [natToStr_lt n h] at hc
      simp at hc
      rw [hc]
      exact digitChar_isDigit n h
    · rw [natToStr_ge n (by omega)] at hc
      rcases List.mem_append.mp hc with h2 | h2
      · exact ih (n / 10) (Nat.div_lt_self (by omega) (by norm_num)) c h2
      · simp at h2
        rw [h2]
        exact digitChar_isDigit _ (Nat.mod_lt n (by norm_num))

theorem natToStr_head (n : Nat) :
    ∃ d t, natToStr n = digitChar d :: t ∧ d < 10 ∧ (1 ≤ n → 1 ≤ d) := by
  induction n using Nat.strong_induction_on with
  | _ n ih =>
    by_cases h : n < 10
    · exact ⟨n, [], natToStr_lt n h, h, fun h1 => h1⟩
    · rcases ih (n / 10) (Nat.div_lt_self (by omega) (by norm_num)) with
        ⟨d, t, he, hd, hpos⟩
      refine ⟨d, t ++ [digitChar (n % 10)], ?_, hd, fun _ => hpos (by omega)⟩
      rw [natToStr_ge n (by omega), he]
      rfl

theorem takeWhile_append_all (p : Char → Bool) (xs : Str)
    (h : ∀ c ∈ xs, p c = true) :
    ∀ rest, (xs ++ rest).takeWhile p = xs ++ rest.takeWhile p := by
  induction xs with
  | nil => intro rest; rfl
  | cons c t ih =>
    intro rest
    simp only [List.cons_append, List.takeWhile_cons, h c (List.mem_cons_self c t)]
    rw [ih (fun x hx => h x (List.mem_cons_of_mem _ hx)) rest]
    simp

theorem dropWhile_append_all (p : Char → Bool) (xs : Str)
    (h : ∀ c ∈ xs, p c = true) :
    ∀ rest, (xs ++ rest).dropWhile p = rest.dropWhile p := by
  induction xs with
  | nil => intro rest; rfl
  | cons c t ih =>
    intro rest
    simp only [List.cons_append, List.dropWhile_cons, h c (List.mem_cons_self c t)]
    exact ih (fun x hx => h x (List.mem_cons_of_mem _ hx)) rest

/-- Remainders a JSON integer may be followed by: nothing, or a character
that neither extends the digit run nor turns the number into a float. -/
def numSafe : Str → Prop
  | [] => True
  | c :: _ => c.isDigit = false ∧ ¬ c = '.' ∧ ¬ c = 'e' ∧ ¬ c = 'E'

theorem numSafe_facts (rest : Str) (hr : numSafe rest) :
    rest.takeWhile Char.isDigit = [] ∧ rest.dropWhile Char.isDigit = rest ∧
      headDotE rest = false := by
  cases rest with
  | nil => exact ⟨rfl, rfl, rfl⟩
  | cons c t =>
    rcases hr with ⟨h1, h2, h3, h4⟩
    refine ⟨?_, ?_, ?_⟩
    · simp [List.takeWhile_cons, h1]
    · simp [List.dropWhile_cons, h1]
    · simp [headDotE, h2, h3, h4]

theorem parseNat_natToStr (n : Nat) (rest : Str) (hr : numSafe rest) :
    parseNat (natToStr n ++ rest) = some (n, rest) := by
  rcases numSafe_facts rest hr with ⟨ht, hd, hdot⟩
  by_cases h0 : n = 0
  · subst h0
    have he : natToStr 0 = ['0'] := by rw [natToStr_lt 0 (by norm_num)]; rfl
    rw [he]
    simp only [List.cons_append, List.nil_append, parseNat]
    rw [if_pos (by decide), if_pos trivial, if_neg (by rw [hdot]; simp)]
  · rcases natToStr_head n with ⟨d, t, he, hdle, hpos⟩
    have hd1 : 1 ≤ d := hpos (by omega)
    have hall : ∀ c ∈ digitChar d :: t, c.isDigit = true := by
      rw [← he]
      exact natToStr_digits n
    rw [he]
    simp only [List.cons_append, parseNat]
    rw [if_pos (digitChar_isDigit d hdle), if_neg (digitChar_ne_zero d hd1 hdle)]
    rw [← List.cons_append, takeWhile_append_all _ _ hall rest,
      dropWhile_append_all _ _ hall rest, ht, hd]
    rw [if_neg (by rw [hdot]; simp)]
    rw [List.append_nil, ← he, digitsVal_natToStr]

theorem digitChar_ne_dash (d : Nat) (h : d < 10) : ¬ digitChar d = '-' := by
  interval_cases d <;> decide

theorem parseNumber_intToStr (n : Int) (rest : Str) (hr : numSafe rest) :
    parseNumber (intToStr n ++ rest) = some (.jint n, rest) := by
  unfold intToStr
  by_cases hn : n < 0
  · rw [if_pos hn]
    simp only [List.cons_append, parseNumber]
    rw [if_pos trivial, parseNat_natToStr _ rest hr]
    simp only [Option.map_some']
    have : (((-n).toNat : Int)) = -n := Int.toNat_of_nonneg (by omega)
    rw [this]
    simp
  · rw [if_neg hn]
    rcases natToStr_head n.toNat with ⟨d, t, he, hdle, _⟩
    rw [he]
    simp only [List.cons_append, parseNumber]
    rw [if_neg (digitChar_ne_dash d hdle)]
    rw [← List.cons_append, ← he, parseNat_natToStr _ rest hr]
    simp only [Option.map_some']
    rw [Int.toNat_of_nonneg (by omega)]

/-! ### String escape/parse roundtrip -/

theorem hexVal_hexDigit (d : Nat) (h : d < 16) : hexVal (hexDigit d) = some d := by
  interval_cases d <;> decide

theorem psb_esc_quote (X : Str) :
    parseStringBody ('\\' :: '"' :: X) =
      (parseStringBody X).map (fun p => ('"' :: p.1, p.2)) := by
  conv_lhs => rw [parseStringBody.eq_def]
  rfl

theorem psb_esc_backslash (X : Str) :
    parseStringBody ('\\' :: '\\' :: X) =
      (parseStringBody X).map (fun p => ('\\' :: p.1, p.2)) := by
  conv_lhs => rw [parseStringBody.eq_def]
  rfl

theorem psb_esc_n (X : Str) :
    parseStringBody ('\\' :: 'n' :: X) =
      (parseStringBody X).map (fun p => ('\n' :: p.1, p.2)) := by
  conv_lhs => rw [parseStringBody.eq_def]
  rfl

theorem psb_esc_r (X : Str) :
    parseStringBody ('\\' :: 'r' :: X) =
      (parseStringBody X).map (fun p => ('\r' :: p.1, p.2)) := by
  conv_lhs => rw [parseStringBody.eq_def]
  rfl

theorem psb_esc_t (X : Str) :
    parseStringBody ('\\' :: 't' :: X) =
      (parseStringBody X).map (fun p => ('\t' :: p.1, p.2)) := by
  conv_lhs => rw [parseStringBody.eq_def]
  rfl

theorem psb_esc_b (X : Str) :
    parseStringBody ('\\' :: 'b' :: X) =
      (parseStringBody X).map (fun p => ('\x08' :: p.1, p.2)) := by
  conv_lhs => rw [parseStringBody.eq_def]
  rfl

theorem psb_esc_f (X : Str) :
    parseStringBody ('\\' :: 'f' :: X) =
      (parseStringBody X).map (fun p => ('\x0c' :: p.1, p.2)) := by
  conv_lhs => rw [parseStringBody.eq_def]
  rfl

theorem psb_control (c : Char) (X : Str) (h : c.toNat < 32) :
    parseStringBody ('\\' :: 'u' :: '0' :: '0' ::
        hexDigit (c.toNat / 16) :: hexDigit (c.toNat % 16) :: X) =
      (parseStringBody X).map (fun p => (c :: p.1, p.2)) := by
  have hhi : c.toNat / 16 < 16 := by omega
  have hlo : c.toNat % 16 < 16 := by omega
  conv_lhs => rw [parseStringBody.eq_def]
  dsimp only
  rw [if_neg (show ¬ ('\\' : Char) = '"' by decide)]
  rw [if_pos (show ('\\' : Char) = '\\' from rfl)]
  rw [if_pos (show ('u' : Char) = 'u' from rfl)]
  simp only [show hexVal '0' = some 0 from rfl,
    hexVal_hexDigit _ hhi, hexVal_hexDigit _ hlo]
  have hcode : ((0 * 16 + 0) * 16 + c.toNat / 16) * 16 + c.toNat % 16 = c.toNat := by
    omega
  rw [hcode]
  rw [if_pos (Or.inl (by omega))]
  rw [Char.ofNat_toNat]

theorem psb_plain (c : Char) (X : Str) (h1 : ¬ c = '"') (h2 : ¬ c = '\\')
    (h3 : ¬ c.toNat < 32) :
    parseStringBody (c :: X) = (parseStringBody X).map (fun p => (c :: p.1, p.2)) := by
  conv_lhs => rw [parseStringBody.eq_def]
  dsimp only
  rw [if_neg h1, if_neg h2, if_neg h3]

theorem parseStringBody_escString (s : Str) :
    ∀ rest, parseStringBody (escString s ++ '"' :: rest) = some (s, rest) := by
  induction s with
  | nil =>
    intro rest
    simp only [escString, List.nil_append]
    conv_lhs => rw [parseStringBody.eq_def]
    rfl
  | cons c t ih =>
    intro rest
    simp only [escString, List.append_assoc]
    by_cases h1 : c = '"'
    · subst h1
      rw [show escapeChar '"' = '\\' :: '"' :: [] from rfl]
      simp only [List.cons_append, List.nil_append]
      rw [psb_esc_quote, ih rest]
      rfl
    · by_cases h2 : c = '\\'
      · subst h2
        rw [show escapeChar '\\' = '\\' :: '\\' :: [] from rfl]
        simp only [List.cons_append, List.nil_append]
        rw [psb_esc_backslash, ih rest]
        rfl
      · by_cases h3 : c = '\n'
        · subst h3
          rw [show escapeChar '\n' = '\\' :: 'n' :: [] from rfl]
          simp only [List.cons_append, List.nil_append]
          rw [psb_esc_n, ih rest]
          rfl
        · by_cases h4 : c = '\r'
          · subst h4
            rw [show escapeChar '\r' = '\\' :: 'r' :: [] from rfl]
            simp only [List.cons_append, List.nil_append]
            rw [psb_esc_r, ih rest]
            rfl
          · by_cases h5 : c = '\t'
            · subst h5
              rw [show escapeChar '\t' = '\\' :: 't' :: [] from rfl]
              simp only [List.cons_append, List.nil_append]
              rw [psb_esc_t, ih rest]
              rfl
            · by_cases h6 : c = '\x08'
              · subst h6
                rw [show escapeChar '\x08' = '\\' :: 'b' :: [] from rfl]
                simp only [List.cons_append, List.nil_append]
                rw [psb_esc_b, ih rest]
                rfl
              · by_cases h7 : c = '\x0c'
                · subst h7
                  rw [show escapeChar '\x0c' = '\\' :: 'f' :: [] from rfl]
                  simp only [List.cons_append, List.nil_append]
                  rw [psb_esc_f, ih rest]
                  rfl
                · by_cases h8 : c.toNat < 32
                  · have hesc : escapeChar c = '\\' :: 'u' :: '0' :: '0' ::
                        hexDigit (c.toNat / 16) :: hexDigit (c.toNat % 16) :: [] := by
                      unfold escapeChar
                      rw [if_neg h1, if_neg h2, if_neg h3, if_neg h4, if_neg h5,
                        if_neg h6, if_neg h7, if_pos h8]
                    rw [hesc]
                    simp only [List.cons_append, List.nil_append]
                    rw [psb_control c _ h8, ih rest]
                    rfl
                  · have hesc : escapeChar c = [c] := by
                      unfold escapeChar
                      rw [if_neg h1, if_neg h2, if_neg h3, if_neg h4, if_neg h5,
                        if_neg h6, if_neg h7, if_neg h8]
                    rw [hesc]
                    simp only [List.cons_append, List.nil_append]
                    rw [psb_plain c _ h1 h2 h8, ih rest]
                    rfl

/-! ### Whitespace, head-shape and fuel lemmas -/

theorem skipWs_append_allWs (ws : Str) (h : ∀ c ∈ ws, isJsonWs c = true) :
    ∀ s, skipWs (ws ++ s) = skipWs s := by
  induction ws with
  | nil => intro s; rfl
  | cons c t ih =>
    intro s
    simp only [List.cons_append, skipWs, List.dropWhile_cons,
      h c (List.mem_cons_self c t), if_true]
    exact ih (fun x hx => h x (List.mem_cons_of_mem _ hx)) s

theorem skipWs_cons_not (c : Char) (s : Str) (h : isJsonWs c = false) :
    skipWs (c :: s) = c :: s := by
  simp only [skipWs, List.dropWhile_cons, h]
  simp

theorem nlIndent_allWs (lvl : Nat) : ∀ c ∈ nlIndent lvl, isJsonWs c = true := by
  intro c hc
  unfold nlIndent at hc
  rcases List.mem_cons.mp hc with h | h
  · rw [h]; rfl
  · rw [List.eq_of_mem_replicate h]; rfl

theorem isJsonWs_numSafe (c : Char) (h : isJsonWs c = true) :
    c.isDigit = false ∧ ¬ c = '.' ∧ ¬ c = 'e' ∧ ¬ c = 'E' := by
  have h2 : ((c = ' ' ∨ c = '\t') ∨ c = '\n') ∨ c = '\r' := by
    simpa [isJsonWs] using h
  rcases h2 with ((h2 | h2) | h2) | h2 <;> subst h2 <;> exact (by decide)

theorem numSafe_ws_append (ws : Str) (hws : ∀ c ∈ ws, isJsonWs c = true)
    (d : Char) (hd : d.isDigit = false ∧ ¬ d = '.' ∧ ¬ d = 'e' ∧ ¬ d = 'E')
    (rest : Str) : numSafe (ws ++ d :: rest) := by
  cases ws with
  | nil => exact hd
  | cons c t => exact isJsonWs_numSafe c (hws c (List.mem_cons_self c t))

theorem digitChar_props (d : Nat) (h : d < 10) :
    isJsonWs (digitChar d) = false ∧ ¬ digitChar d = ']' ∧ ¬ digitChar d = '}' := by
  interval_cases d <;> exact (by decide)

theorem intToStr_head (n : Int) :
    ∃ c t, intToStr n = c :: t ∧ isJsonWs c = false ∧ ¬ c = ']' ∧ ¬ c = '}' := by
  unfold intToStr
  by_cases h : n < 0
  · rw [if_pos h]
    exact ⟨'-', _, rfl, rfl, by decide, by decide⟩
  · rw [if_neg h]
    rcases natToStr_head n.toNat with ⟨d, t, he, hd, _⟩
    rcases digitChar_props d hd with ⟨p1, p2, p3⟩
    exact ⟨digitChar d, t, he, p1, p2, p3⟩

mutual
/-- Fuel sufficient for parseVal to consume one rendered value. -/
def jfuel : JVal → Nat
  | .jnull => 1
  | .jbool _ => 1
  | .jint _ => 1
  | .jstr _ => 1
  | .jarr xs => jfuelA xs + 1
  | .jobj ms => jfuelO ms + 1
/-- Fuel for the elements of an array. -/
def jfuelA : JArr → Nat
  | .anil => 0
  | .acons v tl => jfuel v + jfuelA tl + 1
/-- Fuel for the members of an object. -/
def jfuelO : JObj → Nat
  | .onil => 0
  | .ocons _ v tl => jfuel v + jfuelO tl + 1
end

theorem jfuel_pos (v : JVal) : 1 ≤ jfuel v := by
  cases v <;> simp [jfuel] <;> omega

theorem renderHead (lvl : Nat) (v : JVal) :
    ∃ c t, renderVal lvl v = c :: t ∧ isJsonWs c = false ∧ ¬ c = ']' ∧ ¬ c = '}' := by
  cases v with
  | jnull =>
    exact ⟨'n', ['u', 'l', 'l'], by simp only [renderVal], by decide, by decide,
      by decide⟩
  | jbool b =>
    cases b with
    | true =>
      exact ⟨'t', ['r', 'u', 'e'], by simp only [renderVal], by decide, by decide,
        by decide⟩
    | false =>
      exact ⟨'f', ['a', 'l', 's', 'e'], by simp only [renderVal], by decide,
        by decide, by decide⟩
  | jint n =>
    rcases intToStr_head n with ⟨c, t, he, p1, p2, p3⟩
    exact ⟨c, t, by simp only [renderVal]; exact he, p1, p2, p3⟩
  | jstr s =>
    exact ⟨'"', escString s ++ ['"'],
      by simp only [renderVal, renderStr, List.cons_append], by decide, by decide,
      by decide⟩
  | jarr xs =>
    cases xs with
    | anil => exact ⟨'[', [']'], by simp only [renderVal], by decide, by decide,
        by decide⟩
    | acons v tl =>
      exact ⟨'[', nlIndent (lvl + 1) ++ renderElems (lvl + 1) v tl ++
          nlIndent lvl ++ [']'], by simp only [renderVal], by decide, by decide,
        by decide⟩
  | jobj ms =>
    cases ms with
    | onil => exact ⟨'\x7b', ['\x7d'], by simp only [renderVal], by decide,
        by decide, by decide⟩
    | ocons k v tl =>
      exact ⟨'\x7b', nlIndent (lvl + 1) ++ renderMembers (lvl + 1) k v tl ++
          nlIndent lvl ++ ['\x7d'], by simp only [renderVal], by decide,
        by decide, by decide⟩

/-! ### Parser step equations -/

theorem parseVal_quote (f : Nat) (cs : Str) :
    parseVal (f + 1) ('"' :: cs) =
      (parseStringBody cs).map (fun p => (JVal.jstr p.1, p.2)) := by
  conv_lhs => rw [parseVal.eq_def]
  rfl

theorem parseVal_bracket (f : Nat) (cs : Str) :
    parseVal (f + 1) ('[' :: cs) =
      (match skipWs cs with
       | [] => none
       | d :: r2 =>
         if d = ']' then some (JVal.jarr .anil, r2)
         else (parseElems f (d :: r2)).map (fun p => (JVal.jarr p.1, p.2))) := by
  conv_lhs => rw [parseVal.eq_def]
  rfl

theorem parseVal_brace (f : Nat) (cs : Str) :
    parseVal (f + 1) ('\x7b' :: cs) =
      (match skipWs cs with
       | [] => none
       | d :: r2 =>
         if d = '}' then some (JVal.jobj .onil, r2)
         else (parseMembers f (d :: r2)).map (fun p => (JVal.jobj p.1, p.2))) := by
  conv_lhs => rw [parseVal.eq_def]
  rfl

theorem parseVal_true (f : Nat) (cs : Str) :
    parseVal (f + 1) ('t' :: 'r' :: 'u' :: 'e' :: cs) = some (.jbool true, cs) := by
  conv_lhs => rw [parseVal.eq_def]
  rfl

theorem parseVal_false (f : Nat) (cs : Str) :
    parseVal (f + 1) ('f' :: 'a' :: 'l' :: 's' :: 'e' :: cs) =
      some (.jbool false, cs) := by
  conv_lhs => rw [parseVal.eq_def]
  rfl

theorem parseVal_null (f : Nat) (cs : Str) :
    parseVal (f + 1) ('n' :: 'u' :: 'l' :: 'l' :: cs) = some (.jnull, cs) := by
  conv_lhs => rw [parseVal.eq_def]
  rfl

theorem parseVal_other (f : Nat) (c : Char) (cs : Str)
    (h1 : ¬ c = '"') (h2 : ¬ c = '[') (h3 : ¬ c = '\x7b') (h4 : ¬ c = 't')
    (h5 : ¬ c = 'f') (h6 : ¬ c = 'n') :
    parseVal (f + 1) (c :: cs) = parseNumber (c :: cs) := by
  conv_lhs => rw [parseVal.eq_def]
  dsimp only
  rw [if_neg h1, if_neg h2, if_neg h3, if_neg h4, if_neg h5, if_neg h6]

theorem digitChar_not_special (d : Nat) (h : d < 10) :
    ¬ digitChar d = '"' ∧ ¬ digitChar d = '[' ∧ ¬ digitChar d = '\x7b' ∧
      ¬ digitChar d = 't' ∧ ¬ digitChar d = 'f' ∧ ¬ digitChar d = 'n' := by
  interval_cases d <;> exact (by decide)

theorem parseVal_dash (f : Nat) (cs : Str) :
    parseVal (f + 1) ('-' :: cs) = parseNumber ('-' :: cs) :=
  parseVal_other f '-' cs (by decide) (by decide) (by decide) (by decide)
    (by decide) (by decide)

theorem parseVal_digit (f : Nat) (d : Nat) (h : d < 10) (cs : Str) :
    parseVal (f + 1) (digitChar d :: cs) = parseNumber (digitChar d :: cs) := by
  rcases digitChar_not_special d h with ⟨g1, g2, g3, g4, g5, g6⟩
  exact parseVal_other f (digitChar d) cs g1 g2 g3 g4 g5 g6

theorem parseElems_succ (f : Nat) (s : Str) :
    parseElems (f + 1) s =
      (match parseVal f s with
       | none => none
       | some (v, rest) =>
         (match skipWs rest with
          | [] => none
          | d :: r2 =>
            if d = ']' then some (.acons v .anil, r2)
            else if d = ',' then
              (match parseElems f (skipWs r2) with
               | some p => some (.acons v p.1, p.2)
               | none => none)
            else none)) := by
  conv_lhs => rw [parseElems.eq_def]

theorem parseMembers_quote (f : Nat) (cs : Str) :
    parseMembers (f + 1) ('"' :: cs) =
      (match parseStringBody cs with
       | none => none
       | some (k, r1) =>
         (match skipWs r1 with
          | [] => none
          | d :: r2 =>
            if d = ':' then
              (match parseVal f (skipWs r2) with
               | none => none
               | some (v, r3) =>
                 (match skipWs r3 with
                  | [] => none
                  | d2 :: r4 =>
                    if d2 = '}' then some (.ocons k v .onil, r4)
                    else if d2 = ',' then
                      (match parseMembers f (skipWs r4) with
                       | some p => some (.ocons k v p.1, p.2)
                       | none => none)
                    else none))
            else none)) := by
  conv_lhs => rw [parseMembers.eq_def]
  rfl

/-! ### The parse-of-render roundtrip -/

theorem renderElemsHead (lvl : Nat) (v : JVal) (tl : JArr) :
    ∃ c t, renderElems lvl v tl = c :: t ∧ isJsonWs c = false ∧
      ¬ c = ']' ∧ ¬ c = '}' := by
  rcases renderHead lvl v with ⟨c, t, he, p1, p2, p3⟩
  cases tl with
  | anil => exact ⟨c, t, by simp only [renderElems]; exact he, p1, p2, p3⟩
  | acons w tl2 =>
    refine ⟨c, t ++ (',' :: (nlIndent lvl ++ renderElems lvl w tl2)), ?_, p1, p2, p3⟩
    simp only [renderElems]
    rw [he]
    simp [List.cons_append, List.append_assoc]

theorem skipWs_cons_ws (c : Char) (s : Str) (h : isJsonWs c = true) :
    skipWs (c :: s) = skipWs s := by
  simp only [skipWs, List.dropWhile_cons, h, if_true]

theorem numSafe_comma (X : Str) : numSafe (',' :: X) := by
  show (',').isDigit = false ∧ ¬ (',') = '.' ∧ ¬ (',') = 'e' ∧ ¬ (',') = 'E'
  decide

mutual
theorem parseVal_renderVal (v : JVal) (lvl f : Nat) (rest : Str)
    (hf : jfuel v ≤ f) (hr : numSafe rest) :
    parseVal f (renderVal lvl v ++ rest) = some (v, rest) := by
  obtain ⟨f2, rfl⟩ : ∃ f2, f = f2 + 1 := ⟨f - 1, by have := jfuel_pos v; omega⟩
  cases v with
  | jnull =>
    simp only [renderVal, List.cons_append, List.nil_append]
    exact parseVal_null f2 rest
  | jbool b =>
    cases b with
    | true =>
      simp only [renderVal, List.cons_append, List.nil_append]
      exact parseVal_true f2 rest
    | false =>
      simp only [renderVal, List.cons_append, List.nil_append]
      exact parseVal_false f2 rest
  | jint n =>
    simp only [renderVal]
    by_cases hneg : n < 0
    · have he : intToStr n = '-' :: natToStr (-n).toNat := by
        unfold intToStr
        rw [if_pos hneg]
      rw [he]
      simp only [List.cons_append]
      rw [parseVal_dash]
      rw [← List.cons_append, ← he]
      exact parseNumber_intToStr n rest hr
    · have he : intToStr n = natToStr n.toNat := by
        unfold intToStr
        rw [if_neg hneg]
      rcases natToStr_head n.toNat with ⟨d, t, ht, hd, _⟩
      rw [he, ht]
      simp only [List.cons_append]
      rw [parseVal_digit f2 d hd]
      rw [← List.cons_append, ← ht, ← he]
      exact parseNumber_intToStr n rest hr
  | jstr s =>
    simp only [renderVal, renderStr, List.cons_append, List.append_assoc,
      List.singleton_append, List.nil_append]
    rw [parseVal_quote]
    rw [parseStringBody_escString s rest]
    rfl
  | jarr xs =>
    cases xs with
    | anil =>
      simp only [renderVal, List.cons_append, List.nil_append]
      rw [parseVal_bracket]
      rw [skipWs_cons_not ']' rest (by decide)]
      dsimp only
      rw [if_pos rfl]
    | acons w tl =>
      simp only [renderVal, List.cons_append, List.append_assoc,
        List.singleton_append, List.nil_append]
      rw [parseVal_bracket]
      rw [skipWs_append_allWs _ (nlIndent_allWs (lvl + 1))]
      rcases renderElemsHead (lvl + 1) w tl with ⟨c0, t0, he, p1, p2, p3⟩
      rw [he]
      simp only [List.cons_append]
      rw [skipWs_cons_not c0 _ p1]
      dsimp only
      rw [if_neg p2]
      rw [← List.cons_append, ← he]
      rw [parseElems_renderElems w tl (lvl + 1) f2 (nlIndent lvl) rest
        (by simp only [jfuel, jfuelA] at hf; omega) (nlIndent_allWs lvl)]
      rfl
  | jobj ms =>
    cases ms with
    | onil =>
      simp only [renderVal, List.cons_append, List.nil_append]
      rw [parseVal_brace]
      rw [skipWs_cons_not '}' rest (by decide)]
      dsimp only
      rw [if_pos rfl]
    | ocons k w tl =>
      simp only [renderVal, List.cons_append, List.append_assoc,
        List.singleton_append, List.nil_append]
      rw [parseVal_brace]
      rw [skipWs_append_allWs _ (nlIndent_allWs (lvl + 1))]
      have hh : ∃ t1, renderMembers (lvl + 1) k w tl = '"' :: t1 := by
        cases tl with
        | onil =>
          refine ⟨escString k ++ ('"' :: ':' :: ' ' :: renderVal (lvl + 1) w), ?_⟩
          simp only [renderMembers, renderStr, List.cons_append,
            List.append_assoc, List.singleton_append, List.nil_append]
        | ocons k2 w2 tl2 =>
          refine ⟨escString k ++ ('"' :: ':' :: ' ' :: (renderVal (lvl + 1) w ++
            (',' :: (nlIndent (lvl + 1) ++ renderMembers (lvl + 1) k2 w2 tl2)))), ?_⟩
          simp only [renderMembers, renderStr, List.cons_append,
            List.append_assoc, List.singleton_append, List.nil_append]
      rcases hh with ⟨t1, he⟩
      rw [he]
      simp only [List.cons_append]
      rw [skipWs_cons_not '"' _ (by decide)]
      dsimp only
      rw [if_neg (by decide)]
      rw [← List.cons_append, ← he]
      rw [parseMembers_renderMembers k w tl (lvl + 1) f2 (nlIndent lvl) rest
        (by simp only [jfuel, jfuelO] at hf; omega) (nlIndent_allWs lvl)]
      rfl
termination_by sizeOf v

theorem parseElems_renderElems (v : JVal) (tl : JArr) (lvl f : Nat)
    (ws rest : Str) (hf : jfuel v + jfuelA tl + 1 ≤ f)
    (hws : ∀ c ∈ ws, isJsonWs c = true) :
    parseElems f (renderElems lvl v tl ++ (ws ++ ']' :: rest)) =
      some (.acons v tl, rest) := by
  obtain ⟨f2, rfl⟩ : ∃ f2, f = f2 + 1 := ⟨f - 1, by omega⟩
  rw [parseElems_succ]
  cases tl with
  | anil =>
    simp only [renderElems]
    rw [parseVal_renderVal v lvl f2 (ws ++ ']' :: rest)
      (by simp only [jfuel, jfuelA] at hf ⊢; omega)
      (numSafe_ws_append ws hws ']' (by decide) rest)]
    dsimp only
    rw [skipWs_append_allWs ws hws, skipWs_cons_not ']' rest (by decide)]
    dsimp only
    rw [if_pos rfl]
  | acons w tl2 =>
    simp only [renderElems, List.cons_append, List.append_assoc]
    rw [parseVal_renderVal v lvl f2 _
      (by simp only [jfuel, jfuelA] at hf ⊢; omega) (numSafe_comma _)]
    dsimp only
    rw [skipWs_cons_not ',' _ (by decide)]
    dsimp only
    rw [if_neg (by decide), if_pos rfl]
    rw [skipWs_append_allWs _ (nlIndent_allWs lvl)]
    rcases renderElemsHead lvl w tl2 with ⟨c0, t0, he, p1, _, _⟩
    rw [he]
    simp only [List.cons_append]
    rw [skipWs_cons_not c0 _ p1]
    rw [← List.cons_append, ← he]
    rw [parseElems_renderElems w tl2 lvl f2 ws rest
      (by simp only [jfuel, jfuelA] at hf ⊢; omega) hws]
termination_by sizeOf v + sizeOf tl

theorem parseMembers_renderMembers (k : Str) (v : JVal) (tl : JObj)
    (lvl f : Nat) (ws rest : Str) (hf : jfuel v + jfuelO tl + 1 ≤ f)
    (hws : ∀ c ∈ ws, isJsonWs c = true) :
    parseMembers f (renderMembers lvl k v tl ++ (ws ++ '}' :: rest)) =
      some (.ocons k v tl, rest) := by
  obtain ⟨f2, rfl⟩ : ∃ f2, f = f2 + 1 := ⟨f - 1, by omega⟩
  cases tl with
  | onil =>
    simp only [renderMembers, renderStr, List.cons_append, List.append_assoc,
      List.singleton_append, List.nil_append]
    rw [parseMembers_quote]
    rw [parseStringBody_escString k _]
    dsimp only
    rw [skipWs_cons_not ':' _ (by decide)]
    dsimp only
    rw [if_pos rfl]
    rw [skipWs_cons_ws ' ' _ (by decide)]
    rcases renderHead lvl v with ⟨c0, t0, he, p1, _, _⟩
    rw [he]
    simp only [List.cons_append]
    rw [skipWs_cons_not c0 _ p1]
    rw [← List.cons_append, ← he]
    rw [parseVal_renderVal v lvl f2 (ws ++ '}' :: rest)
      (by simp only [jfuel, jfuelO] at hf ⊢; omega)
      (numSafe_ws_append ws hws '}' (by decide) rest)]
    dsimp only
    rw [skipWs_append_allWs ws hws, skipWs_cons_not '}' rest (by decide)]
    dsimp only
    rw [if_pos rfl]
  | ocons k2 w2 tl2 =>
    simp only [renderMembers, renderStr, List.cons_append, List.append_assoc,
      List.singleton_append, List.nil_append]
    rw [parseMembers_quote]
    rw [parseStringBody_escString k _]
    dsimp only
    rw [skipWs_cons_not ':' _ (by decide)]
    dsimp only
    rw [if_pos rfl]
    rw [skipWs_cons_ws ' ' _ (by decide)]
    rcases renderHead lvl v with ⟨c0, t0, he, p1, _, _⟩
    rw [he]
    simp only [List.cons_append]
    rw [skipWs_cons_not c0 _ p1]
    rw [← List.cons_append, ← he]
    rw [parseVal_renderVal v lvl f2 _
      (by simp only [jfuel, jfuelO] at hf ⊢; omega) (numSafe_comma _)]
    dsimp only
    rw [skipWs_cons_not ',' _ (by decide)]
    dsimp only
    rw [if_neg (by decide), if_pos rfl]
    rw [skipWs_append_allWs _ (nlIndent_allWs lvl)]
    have hh : ∃ t1, renderMembers lvl k2 w2 tl2 = '"' :: t1 := by
      cases tl2 with
      | onil =>
        refine ⟨escString k2 ++ ('"' :: ':' :: ' ' :: renderVal lvl w2), ?_⟩
        simp only [renderMembers, renderStr, List.cons_append,
          List.append_assoc, List.singleton_append, List.nil_append]
      | ocons k3 w3 tl3 =>
        refine ⟨escString k2 ++ ('"' :: ':' :: ' ' :: (renderVal lvl w2 ++
          (',' :: (nlIndent lvl ++ renderMembers lvl k3 w3 tl3)))), ?_⟩
        simp only [renderMembers, renderStr, List.cons_append,
          List.append_assoc, List.singleton_append, List.nil_append]
    rcases hh with ⟨t1, he2⟩
    rw [he2]
    simp only [List.cons_append]
    rw [skipWs_cons_not '"' _ (by decide)]
    rw [← List.cons_append, ← he2]
    rw [parseMembers_renderMembers k2 w2 tl2 lvl f2 ws rest
      (by simp only [jfuel, jfuelO] at hf ⊢; omega) hws]
termination_by sizeOf v + sizeOf tl
end

/-! ### Fuel bound and the full loads-of-dumps identity -/

mutual
theorem jfuel_le_renderLen (v : JVal) (lvl : Nat) :
    jfuel v ≤ (renderVal lvl v).length := by
  cases v with
  | jnull => simp [renderVal, jfuel]
  | jbool b => cases b <;> simp [renderVal, jfuel]
  | jint n =>
    simp only [renderVal, jfuel]
    by_cases hneg : n < 0
    · unfold intToStr
      rw [if_pos hneg]
      simp
    · unfold intToStr
      rw [if_neg hneg]
      rcases natToStr_head n.toNat with ⟨d, t, ht, _, _⟩
      rw [ht]
      simp
  | jstr s =>
    simp only [renderVal, renderStr, jfuel, List.length_append,
      List.length_cons]
    omega
  | jarr xs =>
    cases xs with
    | anil => simp [renderVal, jfuel, jfuelA]
    | acons w tl =>
      have h := jfuelA_le_renderLen w tl (lvl + 1)
      simp only [renderVal, jfuel, jfuelA, List.length_cons,
        List.length_append]
      omega
  | jobj ms =>
    cases ms with
    | onil => simp [renderVal, jfuel, jfuelO]
    | ocons k w tl =>
      have h := jfuelO_le_renderLen k w tl (lvl + 1)
      simp only [renderVal, jfuel, jfuelO, List.length_cons,
        List.length_append]
      omega
termination_by sizeOf v

theorem jfuelA_le_renderLen (v : JVal) (tl : JArr) (lvl : Nat) :
    jfuel v + jfuelA tl + 1 ≤ (renderElems lvl v tl).length + 1 := by
  cases tl with
  | anil =>
    have h := jfuel_le_renderLen v lvl
    simp only [renderElems, jfuelA]
    omega
  | acons w tl2 =>
    have h1 := jfuel_le_renderLen v lvl
    have h2 := jfuelA_le_renderLen w tl2 lvl
    simp only [renderElems, jfuelA, List.length_append, List.length_cons]
    omega
termination_by sizeOf v + sizeOf tl

theorem jfuelO_le_renderLen (k : Str) (v : JVal) (tl : JObj) (lvl : Nat) :
    jfuel v + jfuelO tl + 1 ≤ (renderMembers lvl k v tl).length + 1 := by
  cases tl with
  | onil =>
    have h := jfuel_le_renderLen v lvl
    simp only [renderMembers, jfuelO, List.length_append, List.length_cons]
    omega
  | ocons k2 w2 tl2 =>
    have h1 := jfuel_le_renderLen v lvl
    have h2 := jfuelO_le_renderLen k2 w2 tl2 lvl
    simp only [renderMembers, jfuelO, List.length_append, List.length_cons]
    omega
termination_by sizeOf v + sizeOf tl
end

/-- json.loads of json.dumps is the identity on every JSON value of the
embedding: the fuel 2*length+2 of jsonLoads always suffices. -/
theorem jsonLoads_jsonDumps (v : JVal) : jsonLoads (jsonDumps v) = some v := by
  unfold jsonLoads jsonDumps
  rcases renderHead 0 v with ⟨c, t, he, p1, _, _⟩
  have h1 : skipWs (renderVal 0 v) = renderVal 0 v := by
    rw [he]
    exact skipWs_cons_not c t p1
  rw [h1]
  have hfuel : jfuel v ≤ 2 * (renderVal 0 v).length + 2 := by
    have h2 := jfuel_le_renderLen v 0
    omega
  have hnum : numSafe ([] : Str) := by
    show True
    exact trivial
  have h3 := parseVal_renderVal v 0 (2 * (renderVal 0 v).length + 2) [] hfuel hnum
  rw [List.append_nil] at h3
  rw [h3]
  rfl

/-- The list of grading rows keeps its length through the JSON embedding. -/
theorem rowsToJArr_length (rs : List QuizRow) :
    (rowsToJArr rs).toList.length = rs.length := by
  induction rs with
  | nil => rfl
  | cons r rs ih => simp [rowsToJArr, JArr.toList, ih]

/-- C3: serializing the session (messages, kb_text, optional
last_quiz_result) with the export dump and importing the resulting document
succeeds and reproduces the identical messages list and kb_text string; when
a last quiz result is present, the stored result is a dict with the identical
score and the identical number of grading rows (and when absent, the stored
result field is left as it was). -/
theorem export_import_roundtrip (st : SessionState) (msgs : List ChatTurn)
    (kb : Str) (lastq : Option QuizResult) :
    (importJson st (exportJson msgs kb lastq)).2 = none ∧
    (importJson st (exportJson msgs kb lastq)).1.messages =
      .jarr (turnsToJArr msgs) ∧
    (importJson st (exportJson msgs kb lastq)).1.kb_text = .jstr kb ∧
    (match lastq with
     | none =>
       (importJson st (exportJson msgs kb lastq)).1.last_quiz_result =
         st.last_quiz_result
     | some q =>
       ∃ ms,
         (importJson st (exportJson msgs kb lastq)).1.last_quiz_result =
           some (.jobj ms) ∧
         JObj.get ms (("score").data) = some (.jint q.score) ∧
         ∃ rws, JObj.get ms (("rows").data) = some (.jarr rws) ∧
           rws.toList.length = q.rows.length) := by
  cases lastq with
  | none =>
    have hrun : importJson st (exportJson msgs kb none) =
        ({ messages := .jarr (turnsToJArr msgs), kb_text := .jstr kb,
           last_quiz_result := st.last_quiz_result }, none) := by
      unfold importJson exportJson
      rw [jsonLoads_jsonDumps]
      rfl
    rw [hrun]
    exact ⟨rfl, rfl, rfl, rfl⟩
  | some q =>
    have hrun : importJson st (exportJson msgs kb (some q)) =
        ({ messages := .jarr (turnsToJArr msgs), kb_text := .jstr kb,
           last_quiz_result := some (resultToJVal q) }, none) := by
      unfold importJson exportJson
      rw [jsonLoads_jsonDumps]
      rfl
    rw [hrun]
    refine ⟨rfl, rfl, rfl,
      ⟨.ocons (("score").data) (.jint q.score)
        (.ocons (("rows").data) (.jarr (rowsToJArr q.rows))
        (.ocons (("created_at").data) (.jstr q.created_at) .onil)),
       rfl, rfl, rowsToJArr q.rows, rfl, rowsToJArr_length q.rows⟩⟩
